import Mathlib

/-!
Verification of the getvault.io storage engine (Go sources) against its
natural-language specification.

Shallow embedding conventions:
* Go byte slices are `List Nat` (one `Nat` per byte; where the byte range
  matters a `< 256` hypothesis is carried).
* A Go `([]byte, error)` pair is `GoBytes` (`val = none` models a nil slice,
  `err = none` a nil error).
* AES-256 is an abstract keyed block function `E : Bytes → Bytes → Bytes`
  (key, 16-byte register ↦ 16-byte keystream block); the CFB stream
  construction of Go's `crypto/cipher` is embedded concretely, since the
  claims depend only on the CFB structure, never on AES internals.
* SHA-256 is an abstract function `H : Bytes → Bytes`.
* Reed-Solomon `Split`/`Encode`/`Join` from klauspost/reedsolomon are
  embedded concretely (they are plain buffer arithmetic); the GF(256)
  solver inside `Reconstruct` is a parameter, with its documented contract
  carried as a hypothesis where a claim needs it.
-/

namespace Vault

/-- Byte strings: one `Nat` per byte. -/
abbrev Bytes := List Nat

/-- Go `([]byte, error)`: `val = none` models a nil slice, `err = none` a nil
error. -/
structure GoBytes where
  val : Option Bytes
  err : Option String
deriving DecidableEq, Repr

/-! ## pkg/encryption (encryption.go) -/

/-- `aes.BlockSize`. -/
def blockSize : Nat := 16

/-- `aes.NewCipher` succeeds exactly for key lengths 16, 24, 32. -/
def aesKeyOk (key : Bytes) : Bool :=
  key.length == 16 || key.length == 24 || key.length == 32

/-- XOR of two byte strings, truncated to the shorter one
(`XORKeyStream` semantics for one segment). -/
def xorBytes (a b : Bytes) : Bytes := List.zipWith Nat.xor a b

/-- Go `cipher.NewCFBEncrypter` stream: the register starts at the IV; each
segment of keystream is `E reg`; after a full 16-byte segment the register
becomes the ciphertext segment just produced. -/
def cfbEncrypt (E : Bytes → Bytes) (reg : Bytes) (p : Bytes) : Bytes :=
  if h : p = [] then []
  else
    let c := xorBytes (p.take blockSize) (E reg)
    c ++ cfbEncrypt E c (p.drop blockSize)
termination_by p.length
decreasing_by
  simp only [List.length_drop]
  have hl : p.length ≠ 0 := fun hl => h (List.eq_nil_of_length_eq_zero hl)
  simp [blockSize]; omega

/-- Go `cipher.NewCFBDecrypter` stream: as `cfbEncrypt`, but the register is
fed the incoming ciphertext segment. -/
def cfbDecrypt (E : Bytes → Bytes) (reg : Bytes) (cs : Bytes) : Bytes :=
  if h : cs = [] then []
  else
    xorBytes (cs.take blockSize) (E reg) ++ cfbDecrypt E (cs.take blockSize) (cs.drop blockSize)
termination_by cs.length
decreasing_by
  simp only [List.length_drop]
  have hl : cs.length ≠ 0 := fun hl => h (List.eq_nil_of_length_eq_zero hl)
  simp [blockSize]; omega

/-- `encryption.Encrypt`: random 16-byte IV (passed here as the `iv`
argument) prepended to the CFB-encrypted body. -/
def Encrypt (E : Bytes → Bytes → Bytes) (data key iv : Bytes) : GoBytes :=
  if aesKeyOk key then ⟨some (iv ++ cfbEncrypt (E key) iv data), none⟩
  else ⟨none, some "crypto/aes: invalid key size"⟩

/-- `encryption.Decrypt`. Faithful to the source: the short-input guard
executes `return nil, err` at a point where `err` is necessarily nil, so it
reports no error. -/
def Decrypt (E : Bytes → Bytes → Bytes) (cipherText key : Bytes) : GoBytes :=
  if aesKeyOk key then
    if cipherText.length < blockSize then ⟨none, none⟩
    else
      ⟨some (cfbDecrypt (E key) (cipherText.take blockSize) (cipherText.drop blockSize)), none⟩
  else ⟨none, some "crypto/aes: invalid key size"⟩

/-! ## encoding/hex (Go standard library, as used by the pipeline) -/

/-- Lowercase hex digit of a nibble, as emitted by `hex.EncodeToString`
(Go's `hextable` maps 0–9 to `'0'..'9'` and 10–15 to `'a'..'f'`). -/
def hexNib (n : Nat) : Char :=
  if n < 10 then Char.ofNat (Char.toNat '0' + n) else Char.ofNat (Char.toNat 'a' + n - 10)

def hexEncodeByte (b : Nat) : List Char := [hexNib (b / 16), hexNib (b % 16)]

/-- `hex.EncodeToString`. -/
def hexEncode (bs : Bytes) : String := ⟨(bs.map hexEncodeByte).flatten⟩

/-- `hex.DecodeString` digit decoding (accepts both cases). -/
def hexNibDecode (c : Char) : Option Nat :=
  if '0' ≤ c ∧ c ≤ '9' then some (c.toNat - '0'.toNat)
  else if 'a' ≤ c ∧ c ≤ 'f' then some (c.toNat - 'a'.toNat + 10)
  else if 'A' ≤ c ∧ c ≤ 'F' then some (c.toNat - 'A'.toNat + 10)
  else none

def hexDecodeList : List Char → Option Bytes
  | [] => some []
  | [_] => none
  | a :: b :: rest =>
    match hexNibDecode a, hexNibDecode b, hexDecodeList rest with
    | some ha, some hb, some r => some ((ha * 16 + hb) :: r)
    | _, _, _ => none

/-- `hex.DecodeString`: errors (`none`) on odd length or a non-hex digit. -/
def hexDecode (s : String) : Option Bytes := hexDecodeList s.data

/-! ## pkg/erasurecoding (src/unnamed/part_000) over klauspost/reedsolomon -/

def DataShards : Nat := 8

def ParityShards : Nat := 6

/-- Shard length chosen by klauspost `Split`: `ceil(len / DataShards)`. -/
def perShard (n : Nat) : Nat := (n + DataShards - 1) / DataShards

/-- The input zero-padded to `perShard · DataShards` bytes. -/
def rsPadded (data : Bytes) : Bytes :=
  data ++ List.replicate (perShard data.length * DataShards - data.length) 0

/-- The `DataShards` equal slices of the padded input. -/
def splitDataShards (data : Bytes) : List Bytes :=
  (List.range DataShards).map
    (fun i => ((rsPadded data).drop (i * perShard data.length)).take (perShard data.length))

/-- klauspost `Split`: errors on empty input; otherwise zero-pads the input to
`perShard · DataShards` bytes, slices it into `DataShards` equal data shards,
and allocates `ParityShards` zero shards for the parity to be computed into. -/
def rsSplit (data : Bytes) : Except String (List Bytes) :=
  if data.length = 0 then .error "too short data"
  else
    .ok (splitDataShards data
      ++ List.replicate ParityShards (List.replicate (perShard data.length) 0))

/-- `erasurecoding.Encode`: `Split` then `Encode`; the Reed-Solomon parity
computation over GF(256) is the abstract parameter `parity`, mapping the
`DataShards` data shards to the `ParityShards` parity shards it writes. -/
def Encode (parity : List Bytes → List Bytes) (data : Bytes) : Except String (List Bytes) :=
  match rsSplit data with
  | .error e => .error e
  | .ok shards => .ok (shards.take DataShards ++ parity (shards.take DataShards))

def countPresent (shards : List (Option Bytes)) : Nat :=
  shards.countP (fun s => s.isSome)

/-- klauspost `Reconstruct` control flow: with no shard missing it returns the
input at once; with fewer than `DataShards` present it fails; otherwise the
GF(256) solver (abstract parameter `fill`) recovers the full shard vector. -/
def rsReconstruct (fill : List (Option Bytes) → Except String (List Bytes))
    (shards : List (Option Bytes)) : Except String (List Bytes) :=
  if countPresent shards = shards.length then .ok (shards.map (fun s => s.getD []))
  else if countPresent shards < DataShards then .error "too few shards given"
  else fill shards

/-- klauspost `Join`: concatenates the data shards and yields `outSize` bytes. -/
def rsJoin (shards : List Bytes) (outSize : Nat) : Except String Bytes :=
  let joined := (shards.take DataShards).flatten
  if joined.length < outSize then .error "shards do not contain enough data"
  else .ok (joined.take outSize)

/-- `erasurecoding.Decode`: `Reconstruct`, then `Join` exactly
`len(shards[0]) * DataShards` bytes of the reconstructed shards. -/
def Decode (fill : List (Option Bytes) → Except String (List Bytes))
    (shards : List (Option Bytes)) : Except String Bytes :=
  match rsReconstruct fill shards with
  | .error e => .error e
  | .ok full => rsJoin full ((full.headD []).length * DataShards)

/-! ## pkg/sharding (sharding.go, location-aware version) -/

/-- `filepath.Join(location, fmt.Sprintf("%s_%d.shard", dataID, index))`;
path cleaning is irrelevant to the claims, so plain concatenation. -/
def getShardPath (location dataID : String) (index : Nat) : String :=
  location ++ "/" ++ dataID ++ "_" ++ toString index ++ ".shard"

/-- `InMemoryShardStore`: the in-memory map (newest entry first) plus the
persisted disk copies (path ↦ bytes). -/
structure InMemoryShardStore where
  shardStore : List ((String × Nat) × Bytes)
  disk : List (String × Bytes)
deriving DecidableEq, Repr

def memLookup (m : List ((String × Nat) × Bytes)) (dataID : String) (index : Nat) :
    Option Bytes :=
  match m.find? (fun e => e.1.1 == dataID && e.1.2 == index) with
  | some e => some e.2
  | none => none

def diskLookup (d : List (String × Bytes)) (path : String) : Option Bytes :=
  match d.find? (fun e => e.1 == path) with
  | some e => some e.2
  | none => none

/-- `InMemoryShardStore.StoreShard`: stores into the memory map and persists a
copy at `<location>/<dataID>_<index>.shard` (`MkdirAll` and `WriteFile` are
modelled as succeeding). -/
def StoreShard (ims : InMemoryShardStore) (dataID : String) (index : Nat)
    (shard : Bytes) (location : String) : Except String InMemoryShardStore :=
  .ok { shardStore := ((dataID, index), shard) :: ims.shardStore,
        disk := (getShardPath location dataID index, shard) :: ims.disk }

/-- `InMemoryShardStore.RetrieveShard`: the memory map is consulted first; on
a miss the disk copy at the given location is read and cached into memory. -/
def RetrieveShard (ims : InMemoryShardStore) (dataID : String) (index : Nat)
    (location : String) : Except String (Bytes × InMemoryShardStore) :=
  match memLookup ims.shardStore dataID index with
  | some shard => .ok (shard, ims)
  | none =>
    match diskLookup ims.disk (getShardPath location dataID index) with
    | some shard =>
      .ok (shard, { ims with shardStore := ((dataID, index), shard) :: ims.shardStore })
    | none => .error ("no shards found for DataID: " ++ dataID)

/-- The `sharding.ShardStore` interface. -/
structure ShardStore (σ : Type) where
  storeShard : σ → String → Nat → Bytes → String → Except String σ
  retrieveShard : σ → String → Nat → String → Except String (Bytes × σ)

def inMemoryStore : ShardStore InMemoryShardStore :=
  ⟨StoreShard, RetrieveShard⟩

/-- A backend with some shard indices made unretrievable (deleted shards);
stores pass through to the inner backend. -/
def maskedStore {σ : Type} (inner : ShardStore σ) (mask : Nat → Bool) : ShardStore σ :=
  ⟨inner.storeShard,
   fun st dataID index location =>
     if mask index then .error "shard unavailable"
     else inner.retrieveShard st dataID index location⟩

/-- A stateless backend whose `put` outcome per index is prescribed by
`fails` (used to examine `StoreData`'s abort behaviour). -/
def failStore (fails : Nat → Option String) : ShardStore Unit :=
  ⟨fun st _ index _ _ => match fails index with
    | some e => .error e
    | none => .ok st,
   fun _ _ _ _ => .error "retrieval not modelled"⟩

/-- Concrete block cipher instance for evaluating the embedding (an all-zero
keystream; the verified statements are universal in the cipher). -/
def zeroCipher : Bytes → Bytes → Bytes := fun _ _ => List.replicate 16 0

/-- Concrete parity instance: six empty parity shards per call (the verified
statements only use that the parity count is `ParityShards`). -/
def zeroParity : List Bytes → List Bytes := fun _ => List.replicate 6 []

/-- Concrete Reed-Solomon solver instance for evaluation: fill missing shards
with the present values (adequate where the solver is never consulted or its
contract is supplied as a hypothesis). -/
def idFill : List (Option Bytes) → Except String (List Bytes) :=
  fun shards => .ok (shards.map (fun s => s.getD []))

/-! ## pkg/config and key handling -/

structure Config where
  EncryptionKey : String

/-- `datastorage.GetEncryptionKey`: hex-decode the configured key and require
32 bytes. -/
def GetEncryptionKey (cfg : Config) : Except String Bytes :=
  match hexDecode cfg.EncryptionKey with
  | none => .error "encoding/hex: invalid byte"
  | some key =>
    if key.length = 32 then .ok key
    else .error "invalid encryption key length; must be 32 bytes for AES-256"

/-- `datastorage.GenerateDataID`: lowercase hex of SHA-256 (abstract `H`). -/
def GenerateDataID (H : Bytes → Bytes) (data : Bytes) : String :=
  hexEncode (H data)

/-! ## Metadata (manifest) file -/

/-- One line of the metadata file. A `kv` line is written
`indent ++ key ++ ": " ++ value`; no key used by the writer contains `": "`
and `MetadataFileReader` recovers the key by `TrimSpace`, so a `kv` line is
represented by its trimmed key and its exact value (all values written are
free of surrounding whitespace, making the reader's value-TrimSpace the
identity). `raw` lines (block closers) contain no `": "` separator and are
skipped by the reader. -/
inductive ManifestLine
  | kv (key value : String)
  | raw (s : String)
deriving DecidableEq, Repr

/-- `datastorage.MetadataFileReader`: value of the first line whose trimmed
key matches exactly. -/
def MetadataFileReader (lines : List ManifestLine) (key : String) :
    Except String String :=
  match lines.findSome? (fun l => match l with
    | .kv k v => if k == key then some v else none
    | .raw _ => none) with
  | some v => .ok v
  | none => .error "key not found in metadata file"

/-- A `shard_<i>` storage-location line: its key begins with the six
characters `shard_` (stated over the character list to keep it decidable). -/
def isShardLine : ManifestLine → Bool
  | .kv k _ => k.data.take 6 == ['s', 'h', 'a', 'r', 'd', '_']
  | .raw _ => false

/-! ## cbergoon/merkletree and pkg/proofofinclusion -/

/-- One level-up step of a binary Merkle level: adjacent pairs are hashed with
`H` of the concatenation; a trailing unpaired node is paired with itself.
Both the `merkle` package (`buildTree`) and cbergoon/merkletree
(`buildIntermediate`) use this rule. -/
def nextLevel (H : Bytes → Bytes) : List Bytes → List Bytes
  | [] => []
  | [x] => [H (x ++ x)]
  | x :: y :: rest => H (x ++ y) :: nextLevel H rest

/-- Length bound for `nextLevel`, needed for the termination of
`buildLevels`. -/
def nextLevel_len_le (H : Bytes → Bytes) :
    (l : List Bytes) → (nextLevel H l).length ≤ (l.length + 1) / 2
  | [] => by simp [nextLevel]
  | [x] => by simp [nextLevel]
  | x :: y :: rest => by
    have hr := nextLevel_len_le H rest
    simp only [nextLevel, List.length_cons] at hr ⊢
    omega

/-- Tree levels, leaves first, up to the single root node. -/
def buildLevels (H : Bytes → Bytes) (level : List Bytes) : List (List Bytes) :=
  if _h : level.length ≤ 1 then [level]
  else level :: buildLevels H (nextLevel H level)
termination_by level.length
decreasing_by
  have hk := nextLevel_len_le H level
  omega

/-- cbergoon `NewTree` leaf contents: with an odd number of contents the last
leaf is duplicated (`Leafs` includes the duplicate). -/
def cbLeafContents (contents : List Bytes) : List Bytes :=
  if contents.length % 2 = 1 then contents ++ [contents.getLastD []] else contents

/-- cbergoon tree levels: hashed (possibly duplicated) leaves, then paired
levels up to the root. `Content.CalculateHash` is `H` of the raw bytes. -/
def cbLevels (H : Bytes → Bytes) (contents : List Bytes) : List (List Bytes) :=
  buildLevels H ((cbLeafContents contents).map H)

/-- cbergoon `GetMerklePath` parent walk, bottom-up. At the level of the
current node (index `j`) the parent's left child sits at `2*(j/2)` and its
right child at `2*(j/2)+1` — or at `2*(j/2)` itself when unpaired; the
recorded sibling is the parent's right child hash (side 1) when the parent's
left child hash equals the current hash, else its left child hash (side 0). -/
def cbPathAux : List (List Bytes) → Nat → List Bytes × List Nat
  | [], _ => ([], [])
  | [_], _ => ([], [])
  | l :: rest, j =>
    let li := 2 * (j / 2)
    let ri := if li + 1 < l.length then li + 1 else li
    let pr := cbPathAux rest (j / 2)
    if l.getD li [] == l.getD j [] then
      (l.getD ri [] :: pr.1, 1 :: pr.2)
    else
      (l.getD li [] :: pr.1, 0 :: pr.2)

/-- cbergoon `GetMerklePath`: the first leaf whose content equals `content`
(`Content.Equals` is byte equality) is walked to the root; an absent content
yields nil path and indices (cbergoon returns `nil, nil, nil`). -/
def cbMerklePath (H : Bytes → Bytes) (contents : List Bytes) (content : Bytes) :
    List Bytes × List Nat :=
  match (cbLeafContents contents).findIdx? (fun c => c == content) with
  | some j => cbPathAux (cbLevels H contents) j
  | none => ([], [])

/-- Go `%v` rendering of a `[]byte`. -/
def fmtBytesGo (b : Bytes) : String :=
  "[" ++ String.intercalate " " (b.map toString) ++ "]"

/-- Go `%v` rendering of a `[][]byte`. -/
def fmtHashListGo (hs : List Bytes) : String :=
  "[" ++ String.intercalate " " (hs.map fmtBytesGo) ++ "]"

/-- Go `%v` rendering of an `[]int64`. -/
def fmtIndicesGo (idxs : List Nat) : String :=
  "[" ++ String.intercalate " " (idxs.map toString) ++ "]"

/-- `proofofinclusion.GetProof` output:
`fmt.Sprintf("proof: %v, indices: %v", proof, indices)`. -/
def poiGetProof (H : Bytes → Bytes) (contents : List Bytes) (content : Bytes) : String :=
  "proof: " ++ fmtHashListGo (cbMerklePath H contents content).1
    ++ ", indices: " ++ fmtIndicesGo (cbMerklePath H contents content).2

/-- `proofofinclusion.BuildMerkleTree`: cbergoon `NewTree` fails only on an
empty content list. -/
def BuildMerkleTree (H : Bytes → Bytes) (contents : List Bytes) :
    Except String (List (List Bytes)) :=
  if contents.isEmpty then .error "error: cannot construct tree with no content"
  else .ok (cbLevels H contents)

/-! ## pkg/merkle (src/unnamed/part_001, first file) -/

structure ProofElement where
  hash : Bytes
  isLeft : Bool
deriving DecidableEq, Repr

/-- `(*MerkleTree).Root`: head of the last level (nil cases yield `[]`). -/
def Root (levels : List (List Bytes)) : Bytes := (levels.getLastD []).headD []

/-- `(*MerkleTree).GetProof` loop over `Levels[0 .. len-2]` with a mutable
index. When an even index has no right sibling the source `continue`s without
halving the index — this is the behaviour under verification, bug included. -/
def getProofAux : List (List Bytes) → Nat → List ProofElement
  | [], _ => []
  | [_], _ => []
  | l :: rest, index =>
    if index % 2 = 0 then
      if index + 1 < l.length then
        ⟨l.getD (index + 1) [], false⟩ :: getProofAux rest (index / 2)
      else
        getProofAux rest index
    else
      ⟨l.getD (index - 1) [], true⟩ :: getProofAux rest (index / 2)

/-- `(*MerkleTree).GetProof` with its range check (`Leaves` is level 0). -/
def GetProof (levels : List (List Bytes)) (index : Nat) :
    Except String (List ProofElement) :=
  if index < (levels.headD []).length then .ok (getProofAux levels index)
  else .error "index out of range"

/-- Loop body of `merkle.VerifyProof`: combine the running hash with one
sibling on its recorded side. -/
def verifyStep (H : Bytes → Bytes) (computed : Bytes) (pe : ProofElement) : Bytes :=
  if pe.isLeft then H (pe.hash ++ computed) else H (computed ++ pe.hash)

/-- `merkle.VerifyProof`: refold the leaf with each sibling on its recorded
side and compare to the root. -/
def VerifyProof (H : Bytes → Bytes) (leaf : Bytes) (proof : List ProofElement)
    (root : Bytes) : Bool :=
  (proof.foldl (verifyStep H) leaf) == root

/-- A concrete stand-in hash for evaluating the embedding at specific
inputs (the verified statements above are universal in the hash). -/
def toyHash : Bytes → Bytes :=
  fun b => [(b.foldl (fun a x => a * 31 + x + 7) 3) % 251]

/-! ## pkg/datastorage (storage.go, location-aware version) -/

/-- `MetadataFileCreator` with the random alphanumeric part as a parameter. -/
def MetadataFileCreator (rand12 : String) : String :=
  "vault_session_" ++ rand12 ++ ".vmd"

/-- The shard-store loop of `StoreData`: stores each `(idx, shard)` at
`locations[idx]`; the first failure aborts with that error (earlier writes
remain in the backend state). -/
def storeShardsAux {σ : Type} (ss : ShardStore σ) (dataID : String)
    (locations : List String) : List (Nat × Bytes) → σ → Option String × σ
  | [], st => (none, st)
  | (idx, shard) :: rest, st =>
    match ss.storeShard st dataID idx shard (locations.getD idx "") with
    | .ok st' => storeShardsAux ss dataID locations rest st'
    | .error e => (some e, st)

/-- The proof block of the metadata file: `GetProof` per shard. The source
skips nil shards, but every shard produced by `Split` is non-nil, so the skip
branch is dead on this call path. -/
def manifestProofLines (H : Bytes → Bytes) (shards : List Bytes) : List ManifestLine :=
  shards.enum.map (fun p =>
    ManifestLine.kv ("Proof for shard " ++ toString p.1) (poiGetProof H shards p.2))

/-- The metadata file written by `StoreData`, line by line. -/
def manifestLines (dataID filename : String) (filesize : Nat) (format date : String)
    (locations : List String) (H : Bytes → Bytes) (shards : List Bytes) :
    List ManifestLine :=
  [ManifestLine.kv "dataID" dataID,
   ManifestLine.kv "filename" filename,
   ManifestLine.kv "filesize" (toString filesize),
   ManifestLine.kv "format" format,
   ManifestLine.kv "creation_date" date,
   ManifestLine.kv "storage_locations" "\x7b"]
  ++ locations.enum.map (fun p => ManifestLine.kv ("shard_" ++ toString p.1) p.2)
  ++ [ManifestLine.raw "\x7d", ManifestLine.kv "Proofs" "\x7b"]
  ++ manifestProofLines H shards
  ++ [ManifestLine.raw "\x7d"]

/-- Result of `StoreData`: the returned `(dataID, error)`, the backend state
after the call, and the metadata file written — `none` when the function
returned before reaching the metadata write. -/
structure StoreDataResult (σ : Type) where
  ret : Except String String
  backend : σ
  manifest : Option (String × List ManifestLine)

/-- `datastorage.StoreData` (location-aware version). Randomness (IV,
metadata filename, timestamp) and the pure collaborators (`E`, `H`,
`parity`) are parameters; `filename`/`format` stand for
`filepath.Base`/`filepath.Ext` of `filePath`. -/
def StoreData {σ : Type} (ss : ShardStore σ) (E : Bytes → Bytes → Bytes)
    (H : Bytes → Bytes) (parity : List Bytes → List Bytes) (data : Bytes)
    (st : σ) (cfg : Config) (locations : List String) (iv : Bytes)
    (manifestName filename format date : String) : StoreDataResult σ :=
  match GetEncryptionKey cfg with
  | .error e => ⟨.error e, st, none⟩
  | .ok key =>
    let enc := Encrypt E data key iv
    match enc.err with
    | some e => ⟨.error e, st, none⟩
    | none =>
      let cipherText := enc.val.getD []
      let dataID := GenerateDataID H cipherText
      match Encode parity cipherText with
      | .error e => ⟨.error e, st, none⟩
      | .ok shards =>
        match storeShardsAux ss dataID locations shards.enum st with
        | (some e, st') => ⟨.error e, st', none⟩
        | (none, st') =>
          ⟨.ok dataID, st',
            some (manifestName,
              manifestLines dataID filename data.length format date locations H shards)⟩

/-- The `shard_i` location-reading loop shared by `RetrieveData` and
`VerifyData` (the source hard-codes 14 here). -/
def readLocationsAux (lines : List ManifestLine) : List Nat → Except String (List String)
  | [] => .ok []
  | i :: is =>
    match MetadataFileReader lines ("shard_" ++ toString i) with
    | .error e => .error ("error reading shard location from metadata file: " ++ e)
    | .ok loc =>
      match readLocationsAux lines is with
      | .error e => .error e
      | .ok locs => .ok (loc :: locs)

def readLocations (lines : List ManifestLine) : Except String (List String) :=
  readLocationsAux lines (List.range 14)

/-- The shard-fetch loop of `RetrieveData`: a failed fetch leaves a nil
shard and bumps the missing counter. -/
def fetchShardsAux {σ : Type} (ss : ShardStore σ) (dataID : String)
    (locations : List String) : List Nat → σ → List (Option Bytes) × Nat × σ
  | [], st => ([], 0, st)
  | i :: is, st =>
    match ss.retrieveShard st dataID i (locations.getD i "") with
    | .ok (shard, st') =>
      let r := fetchShardsAux ss dataID locations is st'
      (some shard :: r.1, r.2.1, r.2.2)
    | .error _ =>
      let r := fetchShardsAux ss dataID locations is st
      (none :: r.1, r.2.1 + 1, r.2.2)

/-- `datastorage.RetrieveData` (location-aware version): read `dataID` and the
14 locations from the metadata file, fetch shards (tolerating failures),
guard on the parity budget, `Decode`, then `Decrypt`. -/
def RetrieveData {σ : Type} (ss : ShardStore σ) (E : Bytes → Bytes → Bytes)
    (fill : List (Option Bytes) → Except String (List Bytes))
    (metadataLines : List ManifestLine) (st : σ) (cfg : Config) :
    Except String Bytes :=
  match MetadataFileReader metadataLines "dataID" with
  | .error e => .error ("error reading metadata file: " ++ e)
  | .ok dataID =>
    match readLocations metadataLines with
    | .error e => .error e
    | .ok locations =>
      let fetched := fetchShardsAux ss dataID locations
        (List.range (DataShards + ParityShards)) st
      if fetched.2.1 > ParityShards then .error "insufficient shards for reconstruction"
      else
        match Decode fill fetched.1 with
        | .error e => .error e
        | .ok cipherText =>
          match GetEncryptionKey cfg with
          | .error e => .error e
          | .ok key =>
            let dec := Decrypt E cipherText key
            match dec.err with
            | some e => .error e
            | none => .ok (dec.val.getD [])

/-- The shard-fetch loop of `VerifyData`: failures just leave nil shards. -/
def verifyFetchAux {σ : Type} (ss : ShardStore σ) (dataID : String)
    (locations : List String) : List Nat → σ → List (Option Bytes) × σ
  | [], st => ([], st)
  | i :: is, st =>
    match ss.retrieveShard st dataID i (locations.getD i "") with
    | .ok (shard, st') =>
      let r := verifyFetchAux ss dataID locations is st'
      (some shard :: r.1, r.2)
    | .error _ =>
      let r := verifyFetchAux ss dataID locations is st
      (none :: r.1, r.2)

/-- The proof-reading loop of `VerifyData` (keys `Proof for shard i`). -/
def readProofsAux (lines : List ManifestLine) : List Nat → Except String (List String)
  | [] => .ok []
  | i :: is =>
    match MetadataFileReader lines ("Proof for shard " ++ toString i) with
    | .error e => .error ("failed to read proof from metadata file: " ++ e)
    | .ok pr =>
      match readProofsAux lines is with
      | .error e => .error e
      | .ok prs => .ok (pr :: prs)

/-- `datastorage.VerifyData`: fetch the current shards, rebuild the cbergoon
tree over them (nil shards become empty contents), re-derive each non-nil
shard's proof string and compare it to the persisted one. The result models
the per-shard `Shard_i Verification: %t` output (`none` for skipped nil
shards). -/
def VerifyData {σ : Type} (ss : ShardStore σ) (H : Bytes → Bytes)
    (metadataLines : List ManifestLine) (st : σ) :
    Except String (List (Option Bool)) :=
  match MetadataFileReader metadataLines "dataID" with
  | .error e => .error ("error reading metadata file: " ++ e)
  | .ok dataID =>
    match readLocations metadataLines with
    | .error e => .error e
    | .ok locations =>
      let fetched := verifyFetchAux ss dataID locations (List.range 14) st
      match BuildMerkleTree H (fetched.1.map (fun o => o.getD [])) with
      | .error e => .error e
      | .ok _ =>
        match readProofsAux metadataLines (List.range 14) with
        | .error e => .error e
        | .ok proofs =>
          .ok (fetched.1.enum.map (fun p =>
            match p.2 with
            | none => none
            | some s =>
              some (poiGetProof H (fetched.1.map (fun o => o.getD [])) s
                == proofs.getD p.1 "")))

/-! ## Concrete instances for examining `VerifyData` (14 one-byte shards,
shard 4 altered on the backend after the store) -/

/-- Fourteen one-byte shards as originally stored and recorded in the
manifest. -/
def stoShards : List Bytes :=
  [[0], [1], [2], [3], [4], [5], [6], [7], [8], [9], [10], [11], [12], [13]]

/-- The backend contents after shard 4 is altered to `[99]`; every other
shard is unchanged. -/
def curShards : List Bytes :=
  [[0], [1], [2], [3], [99], [5], [6], [7], [8], [9], [10], [11], [12], [13]]

/-- In-memory backend holding the original `stoShards` under dataID `"d"`. -/
def intactState : InMemoryShardStore :=
  ⟨(List.range 14).map (fun i => (("d", i), stoShards.getD i [])), []⟩

/-- In-memory backend after the single-shard alteration: shard 4 of dataID
`"d"` now holds `[99]`. -/
def tamperedState : InMemoryShardStore :=
  ⟨(List.range 14).map (fun i => (("d", i), curShards.getD i [])), []⟩

end Vault

namespace Vault

/-! ## Lemmas about the CFB stream -/

theorem xorBytes_length (a b : Bytes) : (xorBytes a b).length = min a.length b.length := by
  simp [xorBytes]

theorem xorBytes_cancel (a b : Bytes) (h : a.length ≤ b.length) :
    xorBytes (xorBytes a b) b = a := by
  induction a generalizing b with
  | nil => simp [xorBytes]
  | cons x xs ih =>
    cases b with
    | nil => simp at h
    | cons y ys =>
      simp only [List.length_cons, Nat.add_le_add_iff_right] at h
      simp only [xorBytes, List.zipWith_cons_cons]
      congr 1
      · exact Nat.xor_cancel_right y x
      · exact ih ys h

theorem xorBytes_take (n : Nat) (a b : Bytes) :
    (xorBytes a b).take n = xorBytes (a.take n) (b.take n) := by
  simp [xorBytes, List.take_zipWith]

theorem zipWith_take_right {α β γ : Type} (f : α → β → γ) (a : List α) (b : List β)
    (n : Nat) (h : a.length ≤ n) : List.zipWith f a (b.take n) = List.zipWith f a b := by
  induction a generalizing b n with
  | nil => simp
  | cons x xs ih =>
    cases b with
    | nil => simp
    | cons y ys =>
      cases n with
      | zero => simp at h
      | succ m =>
        simp only [List.take_succ_cons, List.zipWith_cons_cons]
        simp only [List.length_cons, Nat.succ_le_succ_iff] at h
        exact congrArg (f x y :: ·) (ih ys m h)

theorem cfbEncrypt_nil (E : Bytes → Bytes) (reg : Bytes) : cfbEncrypt E reg [] = [] := by
  rw [cfbEncrypt]; simp

theorem cfbEncrypt_ne_nil (E : Bytes → Bytes) (reg p : Bytes) (h : p ≠ []) :
    cfbEncrypt E reg p =
      xorBytes (p.take blockSize) (E reg)
        ++ cfbEncrypt E (xorBytes (p.take blockSize) (E reg)) (p.drop blockSize) := by
  rw [cfbEncrypt]; simp [h]

theorem cfbDecrypt_nil (E : Bytes → Bytes) (reg : Bytes) : cfbDecrypt E reg [] = [] := by
  rw [cfbDecrypt]; simp

theorem cfbDecrypt_ne_nil (E : Bytes → Bytes) (reg cs : Bytes) (h : cs ≠ []) :
    cfbDecrypt E reg cs =
      xorBytes (cs.take blockSize) (E reg)
        ++ cfbDecrypt E (cs.take blockSize) (cs.drop blockSize) := by
  rw [cfbDecrypt]; simp [h]

theorem cfbEncrypt_length (E : Bytes → Bytes) (hE : ∀ x, (E x).length = blockSize)
    (reg p : Bytes) : (cfbEncrypt E reg p).length = p.length := by
  generalize hn : p.length = n
  induction n using Nat.strong_induction_on generalizing reg p with
  | _ n ih =>
    by_cases hp : p = []
    · subst hp; simp [cfbEncrypt_nil] at hn ⊢; omega
    · rw [cfbEncrypt_ne_nil E reg p hp]
      have hpn : p.length ≠ 0 := fun hl => hp (List.eq_nil_of_length_eq_zero hl)
      have hd : (p.drop blockSize).length = p.length - blockSize := by simp
      rcases Nat.lt_or_ge p.length blockSize with hlt | hge
      · have hnil : p.drop blockSize = [] := by
          apply List.eq_nil_of_length_eq_zero; omega
        rw [hnil, cfbEncrypt_nil]
        simp only [List.append_nil, xorBytes_length, hE, List.length_take]
        omega
      · have hrec := ih (p.length - blockSize) (by unfold blockSize at *; omega)
          (xorBytes (p.take blockSize) (E reg)) (p.drop blockSize) hd
        simp only [List.length_append, xorBytes_length, hE, List.length_take, hrec]
        omega

theorem cfbDecrypt_length (E : Bytes → Bytes) (hE : ∀ x, (E x).length = blockSize)
    (reg cs : Bytes) : (cfbDecrypt E reg cs).length = cs.length := by
  generalize hn : cs.length = n
  induction n using Nat.strong_induction_on generalizing reg cs with
  | _ n ih =>
    by_cases hc : cs = []
    · subst hc; simp [cfbDecrypt_nil] at hn ⊢; omega
    · rw [cfbDecrypt_ne_nil E reg cs hc]
      have hpn : cs.length ≠ 0 := fun hl => hc (List.eq_nil_of_length_eq_zero hl)
      have hd : (cs.drop blockSize).length = cs.length - blockSize := by simp
      rcases Nat.lt_or_ge cs.length blockSize with hlt | hge
      · have hnil : cs.drop blockSize = [] := by
          apply List.eq_nil_of_length_eq_zero; omega
        rw [hnil, cfbDecrypt_nil]
        simp only [List.append_nil, xorBytes_length, hE, List.length_take]
        omega
      · have hrec := ih (cs.length - blockSize) (by unfold blockSize at *; omega)
          (cs.take blockSize) (cs.drop blockSize) hd
        simp only [List.length_append, xorBytes_length, hE, List.length_take, hrec]
        omega

theorem xorBytes_take_right (a b : Bytes) (n : Nat) (h : a.length ≤ n) :
    xorBytes a (b.take n) = xorBytes a b :=
  zipWith_take_right _ a b n h

/-- Core CFB fact: decrypting an encrypted stream extended by arbitrary extra
bytes recovers the plaintext as a prefix. -/
theorem cfbDecrypt_encrypt_prefix (E : Bytes → Bytes)
    (hE : ∀ x, (E x).length = blockSize) (p extra reg : Bytes) :
    (cfbDecrypt E reg (cfbEncrypt E reg p ++ extra)).take p.length = p := by
  generalize hn : p.length = n
  induction n using Nat.strong_induction_on generalizing reg p extra with
  | _ n ih =>
    subst hn
    by_cases hp : p = []
    · subst hp; simp
    · have hpn : p.length ≠ 0 := fun hl => hp (List.eq_nil_of_length_eq_zero hl)
      rw [cfbEncrypt_ne_nil E reg p hp]
      have hclen : (xorBytes (p.take blockSize) (E reg)).length = min p.length blockSize := by
        rw [xorBytes_length, hE, List.length_take]
        unfold blockSize
        omega
      rcases Nat.lt_or_ge p.length blockSize with hlt | hge
      · -- final partial segment: `p.drop blockSize = []`
        have htk : p.take blockSize = p := List.take_of_length_le (by omega)
        have hdrop : p.drop blockSize = [] := by
          apply List.eq_nil_of_length_eq_zero; simp; omega
        rw [htk, hdrop, cfbEncrypt_nil, List.append_nil]
        have hclen' : (xorBytes p (E reg)).length = p.length := by
          rw [xorBytes_length, hE]
          exact Nat.min_eq_left (by omega)
        have hstream : xorBytes p (E reg) ++ extra ≠ [] := by
          intro h0
          have h1 := (List.append_eq_nil.mp h0).1
          have h2 := congrArg List.length h1
          rw [hclen'] at h2
          exact hpn h2
        rw [cfbDecrypt_ne_nil E reg _ hstream]
        rw [List.take_append_eq_append_take]
        have hge1 : p.length ≤ (xorBytes ((xorBytes p (E reg) ++ extra).take blockSize)
            (E reg)).length := by
          rw [xorBytes_length, hE, List.length_take, List.length_append, hclen']
          unfold blockSize at *
          omega
        rw [Nat.sub_eq_zero_of_le hge1, List.take_zero, List.append_nil]
        rw [xorBytes_take, List.take_take]
        have hmin : min p.length blockSize = p.length := Nat.min_eq_left (by omega)
        rw [hmin]
        rw [List.take_append_eq_append_take, hclen', Nat.sub_self, List.take_zero,
          List.append_nil, List.take_of_length_le (le_of_eq hclen')]
        rw [xorBytes_take_right _ _ _ (le_of_eq hclen')]
        exact xorBytes_cancel p (E reg) (by rw [hE]; omega)
      · -- full first segment
        have hcfull : (xorBytes (p.take blockSize) (E reg)).length = blockSize := by
          rw [hclen]
          exact Nat.min_eq_right hge
        have hcne : xorBytes (p.take blockSize) (E reg) ≠ [] := by
          intro h0
          have h2 := congrArg List.length h0
          rw [hcfull] at h2
          simp [blockSize] at h2
        have hstream : xorBytes (p.take blockSize) (E reg)
            ++ (cfbEncrypt E (xorBytes (p.take blockSize) (E reg)) (p.drop blockSize) ++ extra)
            ≠ [] := fun h0 => hcne (List.append_eq_nil.mp h0).1
        rw [List.append_assoc]
        rw [cfbDecrypt_ne_nil E reg _ hstream]
        rw [List.take_left' hcfull, List.drop_left' hcfull]
        rw [xorBytes_cancel _ _ (by rw [List.length_take, hE]; exact Nat.min_le_left _ _)]
        rw [List.take_append_eq_append_take]
        have hlen16 : (p.take blockSize).length = blockSize := by
          rw [List.length_take]
          exact Nat.min_eq_left hge
        rw [List.take_of_length_le (by rw [hlen16]; omega), hlen16]
        have hd : (p.drop blockSize).length = p.length - blockSize := by simp
        have hrec := ih (p.length - blockSize)
          (by unfold blockSize at *; omega)
          (p.drop blockSize) extra (xorBytes (p.take blockSize) (E reg)) hd
        rw [hrec]
        exact List.take_append_drop blockSize p

theorem cfbDecrypt_encrypt (E : Bytes → Bytes)
    (hE : ∀ x, (E x).length = blockSize) (p reg : Bytes) :
    cfbDecrypt E reg (cfbEncrypt E reg p) = p := by
  have h := cfbDecrypt_encrypt_prefix E hE p [] reg
  rw [List.append_nil] at h
  have hl : (cfbDecrypt E reg (cfbEncrypt E reg p)).length = p.length := by
    rw [cfbDecrypt_length E hE, cfbEncrypt_length E hE]
  calc cfbDecrypt E reg (cfbEncrypt E reg p)
      = (cfbDecrypt E reg (cfbEncrypt E reg p)).take p.length :=
        (List.take_of_length_le (le_of_eq hl)).symm
    _ = p := h

/-! ## Hex round-trip -/

theorem hexNibDecode_hexNib (n : Nat) (h : n < 16) :
    hexNibDecode (hexNib n) = some n := by
  interval_cases n <;> decide

theorem hexDecodeList_encode (bs : Bytes) (h : ∀ b ∈ bs, b < 256) :
    hexDecodeList (bs.map hexEncodeByte).flatten = some bs := by
  induction bs with
  | nil => rfl
  | cons b rest ih =>
    have hb : b < 256 := h b (by simp)
    have h1 : hexNibDecode (hexNib (b / 16)) = some (b / 16) :=
      hexNibDecode_hexNib _ (by omega)
    have h2 : hexNibDecode (hexNib (b % 16)) = some (b % 16) :=
      hexNibDecode_hexNib _ (by omega)
    have ihr := ih (fun x hx => h x (by simp [hx]))
    show hexDecodeList (hexNib (b / 16) :: hexNib (b % 16)
      :: (List.map hexEncodeByte rest).flatten) = some (b :: rest)
    simp only [hexDecodeList, h1, h2, ihr]
    have hdm : b / 16 * 16 + b % 16 = b := by omega
    rw [hdm]

theorem hexDecode_hexEncode (bs : Bytes) (h : ∀ b ∈ bs, b < 256) :
    hexDecode (hexEncode bs) = some bs := by
  show hexDecodeList (bs.map hexEncodeByte).flatten = some bs
  exact hexDecodeList_encode bs h

theorem GetEncryptionKey_hex (key : Bytes) (hlen : key.length = 32)
    (hbytes : ∀ b ∈ key, b < 256) :
    GetEncryptionKey ⟨hexEncode key⟩ = .ok key := by
  simp [GetEncryptionKey, hexDecode_hexEncode key hbytes, hlen]

/-! ## Claim C4: cipher round-trip and ciphertext shape -/

/-- C4: for every plaintext `p` (including the empty one) and every 32-byte
key, `Decrypt(Encrypt(p, k), k)` returns exactly `p`; the ciphertext is the
16-byte IV followed by a body of the same length as `p`, so its total length
is `len(p) + 16`. -/
theorem C4_encrypt_decrypt_roundtrip (E : Bytes → Bytes → Bytes)
    (hE : ∀ k x, (E k x).length = blockSize) (p key iv : Bytes)
    (hkey : key.length = 32) (hiv : iv.length = blockSize) :
    ∃ ct, (Encrypt E p key iv).val = some ct ∧ (Encrypt E p key iv).err = none ∧
      ct.length = p.length + blockSize ∧ ct.take blockSize = iv ∧
      Decrypt E ct key = ⟨some p, none⟩ := by
  have hok : aesKeyOk key = true := by simp [aesKeyOk, hkey]
  refine ⟨iv ++ cfbEncrypt (E key) iv p, ?_, ?_, ?_, ?_, ?_⟩
  · simp [Encrypt, hok]
  · simp [Encrypt, hok]
  · rw [List.length_append, hiv, cfbEncrypt_length (E key) (hE key)]
    omega
  · exact List.take_left' hiv
  · have hlen : (iv ++ cfbEncrypt (E key) iv p).length = p.length + blockSize := by
      rw [List.length_append, hiv, cfbEncrypt_length (E key) (hE key)]
      omega
    simp only [Decrypt, hok, if_true, hlen]
    rw [if_neg (by omega)]
    rw [List.take_left' hiv, List.drop_left' hiv]
    rw [cfbDecrypt_encrypt (E key) (hE key)]

theorem C4_encrypt_decrypt_roundtrip_witness :
    ∃ ct, (Encrypt (fun _ _ => List.replicate 16 1) [10, 20, 30] (List.replicate 32 0)
        (List.replicate 16 2)).val = some ct ∧
      (Encrypt (fun _ _ => List.replicate 16 1) [10, 20, 30] (List.replicate 32 0)
        (List.replicate 16 2)).err = none ∧
      ct.length = [10, 20, 30].length + blockSize ∧
      ct.take blockSize = List.replicate 16 2 ∧
      Decrypt (fun _ _ => List.replicate 16 1) ct (List.replicate 32 0) =
        ⟨some [10, 20, 30], none⟩ :=
  C4_encrypt_decrypt_roundtrip (fun _ _ => List.replicate 16 1)
    (fun _ _ => by simp [blockSize]) [10, 20, 30] (List.replicate 32 0)
    (List.replicate 16 2) (by simp) (by simp [blockSize])

/-! ## Claim C8: short ciphertext in Decrypt (code bug) -/

/-- C8 (code bug in the source): with a 32-byte key and an input shorter than
16 bytes, `Decrypt` returns a nil slice together with a nil error — the
short-input guard executes `return nil, err` where `err` is necessarily nil,
so no error is reported, contradicting the spec. -/
theorem C8_decrypt_short_input_yields_no_error (E : Bytes → Bytes → Bytes)
    (ct key : Bytes) (hkey : key.length = 32) (hshort : ct.length < 16) :
    Decrypt E ct key = ⟨none, none⟩ := by
  have hok : aesKeyOk key = true := by simp [aesKeyOk, hkey]
  simp only [Decrypt, hok, if_true]
  rw [if_pos (by unfold blockSize; omega)]

theorem C8_decrypt_short_input_yields_no_error_witness :
    Decrypt (fun _ _ => List.replicate 16 1) [7] (List.replicate 32 0) = ⟨none, none⟩ :=
  C8_decrypt_short_input_yields_no_error (fun _ _ => List.replicate 16 1) [7]
    (List.replicate 32 0) (by simp) (by simp)

/-! ## Claim C10: in-memory store consults memory before disk -/

/-- C10: after `StoreShard dataID index shard location` succeeds on the
in-memory store, `RetrieveShard dataID index loc` returns exactly the stored
shard bytes for every location string `loc` (wrong or empty included),
because the in-memory map is consulted before the on-disk copy. -/
theorem C10_retrieve_after_store_ignores_location (ims ims' : InMemoryShardStore)
    (dataID : String) (index : Nat) (shard : Bytes) (location loc : String)
    (h : StoreShard ims dataID index shard location = .ok ims') :
    RetrieveShard ims' dataID index loc = .ok (shard, ims') := by
  have hims : ims' = ⟨((dataID, index), shard) :: ims.shardStore,
    (getShardPath location dataID index, shard) :: ims.disk⟩ := by
    simpa [StoreShard] using h.symm
  subst hims
  simp [RetrieveShard, memLookup]

theorem C10_retrieve_after_store_ignores_location_witness :
    RetrieveShard ⟨[(("d", 3), [9, 9])], [(getShardPath "locA" "d" 3, [9, 9])]⟩
        "d" 3 "totally-wrong-loc"
      = .ok ([9, 9], ⟨[(("d", 3), [9, 9])], [(getShardPath "locA" "d" 3, [9, 9])]⟩) :=
  C10_retrieve_after_store_ignores_location ⟨[], []⟩ _ "d" 3 [9, 9] "locA"
    "totally-wrong-loc" rfl

/-! ## Claim C5: merkle package proofs -/

theorem buildLevels_ne_nil (H : Bytes → Bytes) (l : List Bytes) :
    buildLevels H l ≠ [] := by
  rw [buildLevels]
  split <;> simp

theorem buildLevels_of_le_one (H : Bytes → Bytes) (l : List Bytes)
    (h : l.length ≤ 1) : buildLevels H l = [l] := by
  rw [buildLevels]
  simp [h]

theorem buildLevels_of_ge_two (H : Bytes → Bytes) (l : List Bytes)
    (h : ¬l.length ≤ 1) : buildLevels H l = l :: buildLevels H (nextLevel H l) := by
  rw [buildLevels]
  simp [h]

theorem buildLevels_headD (H : Bytes → Bytes) (l : List Bytes) :
    (buildLevels H l).headD [] = l := by
  rw [buildLevels]
  split <;> rfl

theorem Root_cons_of_ne_nil (l : List Bytes) (rest : List (List Bytes))
    (h : rest ≠ []) : Root (l :: rest) = Root rest := by
  unfold Root
  cases rest with
  | nil => exact absurd rfl h
  | cons a as => simp [List.getLastD_cons]

theorem nextLevel_length_double (H : Bytes → Bytes) :
    ∀ (m : Nat) (l : List Bytes), l.length = 2 * m → (nextLevel H l).length = m := by
  intro m
  induction m with
  | zero =>
    intro l hl
    have hnil : l = [] := List.eq_nil_of_length_eq_zero (by omega)
    subst hnil
    simp [nextLevel]
  | succ k ih =>
    intro l hl
    match l with
    | [] => simp at hl
    | [x] => simp at hl; omega
    | x :: y :: rest =>
      simp only [nextLevel, List.length_cons]
      rw [ih rest (by simp at hl; omega)]

theorem nextLevel_getD (H : Bytes → Bytes) :
    ∀ (l : List Bytes) (j : Nat), 2 * j + 1 < l.length →
      (nextLevel H l).getD j [] = H (l.getD (2 * j) [] ++ l.getD (2 * j + 1) [])
  | [], j, h => by simp at h
  | [x], j, h => by simp only [List.length_singleton] at h; omega
  | x :: y :: rest, 0, h => by simp [nextLevel]
  | x :: y :: rest, j + 1, h => by
    have hr := nextLevel_getD H rest j (by simp at h; omega)
    have e1 : (x :: y :: rest).getD (2 * (j + 1)) [] = rest.getD (2 * j) [] := by
      rw [show 2 * (j + 1) = 2 * j + 1 + 1 from by omega, List.getD_cons_succ,
        List.getD_cons_succ]
    have e2 : (x :: y :: rest).getD (2 * (j + 1) + 1) [] = rest.getD (2 * j + 1) [] := by
      rw [show 2 * (j + 1) + 1 = 2 * j + 1 + 1 + 1 from by omega, List.getD_cons_succ,
        List.getD_cons_succ]
    rw [e1, e2, ← hr]
    rfl

theorem getProofAux_cons (l : List Bytes) (rest : List (List Bytes)) (hr : rest ≠ [])
    (i : Nat) : getProofAux (l :: rest) i =
      if i % 2 = 0 then
        if i + 1 < l.length then
          ⟨l.getD (i + 1) [], false⟩ :: getProofAux rest (i / 2)
        else getProofAux rest i
      else ⟨l.getD (i - 1) [], true⟩ :: getProofAux rest (i / 2) := by
  cases rest with
  | nil => exact absurd rfl hr
  | cons a as => rfl

/-- The verification fold reconstructs the root for every leaf of a tree whose
leaf count is a power of two. -/
theorem merkle_fold_root (H : Bytes → Bytes) :
    ∀ (k : Nat) (level : List Bytes), level.length = 2 ^ k → ∀ i, i < 2 ^ k →
      (getProofAux (buildLevels H level) i).foldl (verifyStep H)
        (level.getD i []) = Root (buildLevels H level) := by
  intro k
  induction k with
  | zero =>
    intro level hl i hi
    have hi0 : i = 0 := by omega
    obtain ⟨x, hx⟩ := List.length_eq_one.mp (by rw [hl]; norm_num)
    subst hx hi0
    rw [buildLevels_of_le_one H _ (by simp)]
    simp [getProofAux, Root]
  | succ k ih =>
    intro level hl i hi
    have hpos : 0 < 2 ^ k := Nat.two_pow_pos k
    have hl2 : level.length = 2 * 2 ^ k := by rw [hl, Nat.pow_succ]; ring
    have h2 : ¬level.length ≤ 1 := by omega
    rw [buildLevels_of_ge_two H level h2]
    have hnext : (nextLevel H level).length = 2 ^ k :=
      nextLevel_length_double H (2 ^ k) level hl2
    rw [getProofAux_cons _ _ (buildLevels_ne_nil H _) i]
    rw [Root_cons_of_ne_nil _ _ (buildLevels_ne_nil H _)]
    rw [Nat.pow_succ] at hi
    by_cases hpar : i % 2 = 0
    · have hsib : i + 1 < level.length := by omega
      rw [if_pos hpar, if_pos hsib]
      simp only [List.foldl_cons]
      have hstep : verifyStep H (level.getD i [])
            (⟨level.getD (i + 1) [], false⟩ : ProofElement)
          = (nextLevel H level).getD (i / 2) [] := by
        show H (level.getD i [] ++ level.getD (i + 1) []) = _
        rw [nextLevel_getD H level (i / 2) (by omega)]
        rw [show 2 * (i / 2) + 1 = i + 1 from by omega,
          show 2 * (i / 2) = i from by omega]
      rw [hstep]
      exact ih (nextLevel H level) hnext (i / 2) (by omega)
    · have hpar1 : i % 2 = 1 := by omega
      rw [if_neg hpar]
      simp only [List.foldl_cons]
      have hstep : verifyStep H (level.getD i [])
            (⟨level.getD (i - 1) [], true⟩ : ProofElement)
          = (nextLevel H level).getD (i / 2) [] := by
        show H (level.getD (i - 1) [] ++ level.getD i []) = _
        rw [nextLevel_getD H level (i / 2) (by omega)]
        rw [show 2 * (i / 2) + 1 = i from by omega,
          show 2 * (i / 2) = i - 1 from by omega]
      rw [hstep]
      exact ih (nextLevel H level) hnext (i / 2) (by omega)

/-- C5 counterexample: for the three-leaf tree over a concrete hash the proof
produced by `GetProof` for leaf index 2 is empty (the source skips the
unpaired node without halving the index) and `VerifyProof` rejects it. -/
theorem C5_counterexample_three_leaves :
    GetProof (buildLevels toyHash [[1], [2], [3]]) 2 = .ok [] ∧
      VerifyProof toyHash [3] [] (Root (buildLevels toyHash [[1], [2], [3]])) = false := by
  have h1 : buildLevels toyHash [[1], [2], [3]]
      = [[[1], [2], [3]], [[128], [191]], [[238]]] := by
    rw [buildLevels_of_ge_two _ _ (by decide),
      show nextLevel toyHash [[1], [2], [3]] = [[128], [191]] from by decide,
      buildLevels_of_ge_two _ _ (by decide),
      show nextLevel toyHash [[128], [191]] = [[238]] from by decide,
      buildLevels_of_le_one _ _ (by decide)]
  rw [h1]
  constructor
  · rfl
  · rfl

/-- C5 (amended): for every list of leaf hashes whose length is a power of two
and every valid leaf index `i`, the proof produced by `GetProof i` verifies:
`VerifyProof (leaves[i]) (GetProof i) (Root) = true`. For other leaf counts
the source's `GetProof` skips unpaired nodes without halving the index, and
verification fails for the affected leaves. -/
theorem C5_pow2_getProof_verifies (H : Bytes → Bytes) (leaves : List Bytes)
    (k : Nat) (hlen : leaves.length = 2 ^ k) (i : Nat) (hi : i < leaves.length) :
    GetProof (buildLevels H leaves) i = .ok (getProofAux (buildLevels H leaves) i) ∧
      VerifyProof H (leaves.getD i []) (getProofAux (buildLevels H leaves) i)
        (Root (buildLevels H leaves)) = true := by
  constructor
  · unfold GetProof
    rw [if_pos (by rw [buildLevels_headD]; exact hi)]
  · unfold VerifyProof
    rw [merkle_fold_root H k leaves hlen i (hlen ▸ hi)]
    simp

/-! ## Pipeline lemmas: storing and fetching through the in-memory backend -/

theorem storeShardsAux_inMemory_ok (dID : String) (locs : List String) :
    ∀ (l : List (Nat × Bytes)) (st : InMemoryShardStore),
      (storeShardsAux inMemoryStore dID locs l st).1 = none := by
  intro l
  induction l with
  | nil => intro st; rfl
  | cons pr rest ih =>
    intro st
    obtain ⟨i, sh⟩ := pr
    have hS : inMemoryStore.storeShard st dID i sh (locs.getD i "")
        = .ok ⟨((dID, i), sh) :: st.shardStore,
            (getShardPath (locs.getD i "") dID i, sh) :: st.disk⟩ := rfl
    simp only [storeShardsAux, hS]
    exact ih _

theorem storeShardsAux_inMemory_frame (dID : String) (locs : List String) :
    ∀ (l : List (Nat × Bytes)) (st : InMemoryShardStore) (i : Nat),
      (∀ pr ∈ l, pr.1 ≠ i) →
      memLookup ((storeShardsAux inMemoryStore dID locs l st).2).shardStore dID i
        = memLookup st.shardStore dID i := by
  intro l
  induction l with
  | nil => intro st i _; rfl
  | cons pr rest ih =>
    intro st i hne
    obtain ⟨j, sh⟩ := pr
    have hj : j ≠ i := hne (j, sh) (by simp)
    have hS : inMemoryStore.storeShard st dID j sh (locs.getD j "")
        = .ok ⟨((dID, j), sh) :: st.shardStore,
            (getShardPath (locs.getD j "") dID j, sh) :: st.disk⟩ := rfl
    simp only [storeShardsAux, hS]
    rw [ih _ i (fun q hq => hne q (by simp [hq]))]
    simp [memLookup, hj]

theorem storeShardsAux_inMemory_hit (dID : String) (locs : List String) :
    ∀ (l : List (Nat × Bytes)) (st : InMemoryShardStore) (i : Nat) (sh : Bytes),
      (i, sh) ∈ l → (l.map Prod.fst).Nodup →
      memLookup ((storeShardsAux inMemoryStore dID locs l st).2).shardStore dID i
        = some sh := by
  intro l
  induction l with
  | nil => intro st i sh hm _; simp at hm
  | cons pr rest ih =>
    intro st i sh hm hnd
    obtain ⟨j, shj⟩ := pr
    rw [List.map_cons, List.nodup_cons] at hnd
    rcases List.mem_cons.mp hm with heq | hmem
    · injection heq with h1 h2
      subst h1
      subst h2
      have hS : inMemoryStore.storeShard st dID i sh (locs.getD i "")
          = .ok ⟨((dID, i), sh) :: st.shardStore,
              (getShardPath (locs.getD i "") dID i, sh) :: st.disk⟩ := rfl
      simp only [storeShardsAux, hS]
      have hni : ∀ q ∈ rest, q.1 ≠ i := by
        intro q hq hqi
        have hmm : q.1 ∈ List.map Prod.fst rest := List.mem_map_of_mem Prod.fst hq
        rw [hqi] at hmm
        exact hnd.1 hmm
      rw [storeShardsAux_inMemory_frame dID locs rest _ i hni]
      simp [memLookup]
    · have hS : inMemoryStore.storeShard st dID j shj (locs.getD j "")
          = .ok ⟨((dID, j), shj) :: st.shardStore,
              (getShardPath (locs.getD j "") dID j, shj) :: st.disk⟩ := rfl
      simp only [storeShardsAux, hS]
      exact ih _ i sh hmem hnd.2

theorem enum_mem_getD {α : Type} (l : List α) (i : Nat) (h : i < l.length) (d : α) :
    (i, l.getD i d) ∈ l.enum := by
  rw [List.mem_enum_iff_getElem?]
  simp [List.getElem?_eq_getElem h, List.getD_eq_getElem l d h]

theorem enum_fst_nodup {α : Type} (l : List α) : (l.enum.map Prod.fst).Nodup := by
  rw [List.enum_map_fst]
  exact List.nodup_range _

theorem fetchShardsAux_masked (dID : String) (locs : List String)
    (shards : List Bytes) (mask : Nat → Bool) :
    ∀ (idxs : List Nat) (st : InMemoryShardStore),
      (∀ i ∈ idxs, mask i = false →
        memLookup st.shardStore dID i = some (shards.getD i [])) →
      fetchShardsAux (maskedStore inMemoryStore mask) dID locs idxs st
        = (idxs.map (fun i => if mask i then none else some (shards.getD i [])),
           idxs.countP mask, st) := by
  intro idxs
  induction idxs with
  | nil => intro st _; rfl
  | cons i rest ih =>
    intro st hmem
    by_cases hm : mask i = true
    · have hR : (maskedStore inMemoryStore mask).retrieveShard st dID i (locs.getD i "")
          = .error "shard unavailable" := by
        simp [maskedStore, hm]
      simp only [fetchShardsAux, hR]
      rw [ih st (fun q hq hqm => hmem q (List.mem_cons_of_mem _ hq) hqm)]
      simp [List.countP_cons, hm]
    · have hmf : mask i = false := by simpa using hm
      have hi := hmem i (by simp) hmf
      have hR : (maskedStore inMemoryStore mask).retrieveShard st dID i (locs.getD i "")
          = .ok (shards.getD i [], st) := by
        simp only [maskedStore, hmf, Bool.false_eq_true, if_false]
        show RetrieveShard st dID i (locs.getD i "") = _
        unfold RetrieveShard
        rw [hi]
      simp only [fetchShardsAux, hR]
      rw [ih st (fun q hq hqm => hmem q (List.mem_cons_of_mem _ hq) hqm)]
      simp [List.countP_cons, hmf]

theorem maskedStore_false : maskedStore inMemoryStore (fun _ => false) = inMemoryStore := rfl

/-! ## Pipeline lemmas: erasure-coding arithmetic -/

theorem range_map_getD {α : Type} (d : α) :
    ∀ (l : List α), (List.range l.length).map (fun i => l.getD i d) = l := by
  intro l
  induction l with
  | nil => rfl
  | cons a t ih =>
    rw [List.length_cons, List.range_succ_eq_map, List.map_cons, List.map_map]
    have h1 : ((fun i => (a :: t).getD i d) ∘ Nat.succ) = (fun i => t.getD i d) := by
      funext i
      simp
    rw [h1]
    simp only [List.getD_cons_zero]
    rw [ih]

theorem flatten_slices (L : Nat) :
    ∀ (d : Nat) (buf : Bytes), buf.length = d * L →
      ((List.range d).map (fun i => (buf.drop (i * L)).take L)).flatten = buf := by
  intro d
  induction d with
  | zero =>
    intro buf h
    have hb : buf = [] := List.eq_nil_of_length_eq_zero (by omega)
    subst hb
    rfl
  | succ k ih =>
    intro buf h
    rw [List.range_succ_eq_map, List.map_cons, List.map_map, List.flatten_cons]
    have h1 : ((fun i => (buf.drop (i * L)).take L) ∘ Nat.succ)
        = fun i => ((buf.drop L).drop (i * L)).take L := by
      funext i
      simp only [Function.comp_apply]
      rw [List.drop_drop, Nat.succ_mul, Nat.add_comm (i * L) L]
    have h2 : (buf.drop L).length = k * L := by
      rw [Nat.succ_mul] at h
      simp only [List.length_drop]
      omega
    rw [h1, ih (buf.drop L) h2]
    simp only [Nat.zero_mul, List.drop_zero]
    exact List.take_append_drop L buf

theorem rsPadded_length (data : Bytes) :
    (rsPadded data).length = perShard data.length * DataShards := by
  have hle : data.length ≤ perShard data.length * DataShards := by
    unfold perShard DataShards
    omega
  simp only [rsPadded, List.length_append, List.length_replicate]
  omega

theorem splitDataShards_length (data : Bytes) :
    (splitDataShards data).length = DataShards := by
  simp [splitDataShards]

theorem splitDataShards_flatten (data : Bytes) :
    (splitDataShards data).flatten = rsPadded data := by
  unfold splitDataShards
  exact flatten_slices (perShard data.length) DataShards (rsPadded data)
    (by rw [rsPadded_length]; exact Nat.mul_comm _ _)

theorem Encode_eq (parity : List Bytes → List Bytes) (data : Bytes)
    (h : data.length ≠ 0) :
    Encode parity data = .ok (splitDataShards data ++ parity (splitDataShards data)) := by
  unfold Encode rsSplit
  rw [if_neg h]
  have htk : (splitDataShards data
      ++ List.replicate ParityShards (List.replicate (perShard data.length) 0)).take DataShards
      = splitDataShards data := List.take_left' (splitDataShards_length data)
  simp only [htk]

theorem Decode_padded (fill : List (Option Bytes) → Except String (List Bytes))
    (masked : List (Option Bytes)) (ct : Bytes) (tail : List Bytes)
    (hrec : rsReconstruct fill masked = .ok (splitDataShards ct ++ tail)) :
    Decode fill masked = .ok (rsPadded ct) := by
  unfold Decode
  rw [hrec]
  unfold rsJoin
  simp only [List.take_left' (splitDataShards_length ct), splitDataShards_flatten]
  have hhead : (splitDataShards ct ++ tail).headD []
      = (rsPadded ct).take (perShard ct.length) := by
    have h0 : (splitDataShards ct ++ tail).headD []
        = ((rsPadded ct).drop (0 * perShard ct.length)).take (perShard ct.length) := rfl
    rw [h0, Nat.zero_mul, List.drop_zero]
  rw [hhead]
  have hLlen : ((rsPadded ct).take (perShard ct.length)).length = perShard ct.length := by
    rw [List.length_take, rsPadded_length]
    unfold DataShards
    omega
  rw [hLlen]
  rw [if_neg (by rw [rsPadded_length]; omega)]
  rw [List.take_of_length_le (le_of_eq (rsPadded_length ct))]

theorem countPresent_masked (shards : List Bytes) (mask : Nat → Bool) (n : Nat) :
    countPresent ((List.range n).map (fun i => if mask i then none
      else some (shards.getD i []))) = n - (List.range n).countP mask := by
  unfold countPresent
  rw [List.countP_map]
  rw [List.countP_congr (q := fun i => !mask i) ?hq]
  case hq =>
    intro i _
    by_cases h : mask i <;> simp [h]
  have hsum := List.length_eq_countP_add_countP mask (List.range n)
  rw [List.length_range] at hsum
  rw [List.countP_congr (p := fun a => decide ¬mask a = true) (q := fun i => !mask i)
    (by intro i _; by_cases h : mask i <;> simp [h])] at hsum
  omega

theorem rsReconstruct_masked (fill : List (Option Bytes) → Except String (List Bytes))
    (shards : List Bytes) (hlen : shards.length = 14) (mask : Nat → Bool)
    (hm : (List.range 14).countP mask ≤ ParityShards)
    (hfill : fill ((List.range 14).map (fun i => if mask i then none
        else some (shards.getD i []))) = .ok shards) :
    rsReconstruct fill ((List.range 14).map (fun i => if mask i then none
        else some (shards.getD i []))) = .ok shards := by
  have hcp := countPresent_masked shards mask 14
  have hll : ((List.range 14).map (fun i => if mask i then none
      else some (shards.getD i []))).length = 14 := by
    rw [List.length_map, List.length_range]
  unfold rsReconstruct
  rw [hcp, hll]
  by_cases h0 : (List.range 14).countP mask = 0
  · rw [if_pos (by omega)]
    have hall : ∀ i ∈ List.range 14, ¬mask i = true := List.countP_eq_zero.mp h0
    have hmap : ((List.range 14).map (fun i => if mask i then none
        else some (shards.getD i []))).map (fun s => s.getD [])
        = (List.range 14).map (fun i => shards.getD i []) := by
      rw [List.map_map]
      apply List.map_congr_left
      intro i hi
      have hmf : mask i = false := by simpa using hall i hi
      simp [hmf]
    rw [hmap]
    rw [show (14 : Nat) = shards.length from hlen.symm, range_map_getD]
  · rw [if_neg (by unfold ParityShards at hm; omega)]
    rw [if_neg (by unfold ParityShards at hm; unfold DataShards; omega)]
    exact hfill

theorem StoreData_eq {σ : Type} (ss : ShardStore σ) (E : Bytes → Bytes → Bytes)
    (H : Bytes → Bytes) (parity : List Bytes → List Bytes) (p : Bytes) (st : σ)
    (key iv : Bytes) (locs : List String) (mn fn fmt date : String)
    (hkey : key.length = 32) (hkb : ∀ b ∈ key, b < 256) (hiv : iv.length = blockSize) :
    StoreData ss E H parity p st ⟨hexEncode key⟩ locs iv mn fn fmt date
      = (match storeShardsAux ss (GenerateDataID H (iv ++ cfbEncrypt (E key) iv p)) locs
            (splitDataShards (iv ++ cfbEncrypt (E key) iv p)
              ++ parity (splitDataShards (iv ++ cfbEncrypt (E key) iv p))).enum st with
         | (some e, st') => ⟨.error e, st', none⟩
         | (none, st') => ⟨.ok (GenerateDataID H (iv ++ cfbEncrypt (E key) iv p)), st',
             some (mn, manifestLines (GenerateDataID H (iv ++ cfbEncrypt (E key) iv p)) fn
               p.length fmt date locs H
               (splitDataShards (iv ++ cfbEncrypt (E key) iv p)
                 ++ parity (splitDataShards (iv ++ cfbEncrypt (E key) iv p))))⟩) := by
  have hok : aesKeyOk key = true := by simp [aesKeyOk, hkey]
  have hct : (iv ++ cfbEncrypt (E key) iv p).length ≠ 0 := by
    simp only [List.length_append, hiv, blockSize]
    omega
  unfold StoreData
  rw [GetEncryptionKey_hex key hkey hkb]
  simp only [Encrypt, hok, if_true]
  simp only [Option.getD_some]
  rw [Encode_eq parity _ hct]

theorem manifestLines_eq (dID fn : String) (fs : Nat) (fmt date : String)
    (l0 l1 l2 l3 l4 l5 l6 l7 l8 l9 l10 l11 l12 l13 : String)
    (H : Bytes → Bytes) (shards : List Bytes) :
    manifestLines dID fn fs fmt date
      [l0, l1, l2, l3, l4, l5, l6, l7, l8, l9, l10, l11, l12, l13] H shards
    = [ManifestLine.kv "dataID" dID, ManifestLine.kv "filename" fn,
       ManifestLine.kv "filesize" (toString fs), ManifestLine.kv "format" fmt,
       ManifestLine.kv "creation_date" date, ManifestLine.kv "storage_locations" "\x7b",
       ManifestLine.kv ("shard_" ++ toString 0) l0, ManifestLine.kv ("shard_" ++ toString 1) l1,
       ManifestLine.kv ("shard_" ++ toString 2) l2, ManifestLine.kv ("shard_" ++ toString 3) l3,
       ManifestLine.kv ("shard_" ++ toString 4) l4, ManifestLine.kv ("shard_" ++ toString 5) l5,
       ManifestLine.kv ("shard_" ++ toString 6) l6, ManifestLine.kv ("shard_" ++ toString 7) l7,
       ManifestLine.kv ("shard_" ++ toString 8) l8, ManifestLine.kv ("shard_" ++ toString 9) l9,
       ManifestLine.kv ("shard_" ++ toString 10) l10,
       ManifestLine.kv ("shard_" ++ toString 11) l11,
       ManifestLine.kv ("shard_" ++ toString 12) l12,
       ManifestLine.kv ("shard_" ++ toString 13) l13,
       ManifestLine.raw "\x7d", ManifestLine.kv "Proofs" "\x7b"]
      ++ manifestProofLines H shards ++ [ManifestLine.raw "\x7d"] := rfl

theorem manifest_reads (dID fn : String) (fs : Nat) (fmt date : String)
    (l0 l1 l2 l3 l4 l5 l6 l7 l8 l9 l10 l11 l12 l13 : String)
    (H : Bytes → Bytes) (shards : List Bytes) :
    MetadataFileReader (manifestLines dID fn fs fmt date
        [l0, l1, l2, l3, l4, l5, l6, l7, l8, l9, l10, l11, l12, l13] H shards) "dataID"
      = .ok dID
    ∧ readLocations (manifestLines dID fn fs fmt date
        [l0, l1, l2, l3, l4, l5, l6, l7, l8, l9, l10, l11, l12, l13] H shards)
      = .ok [l0, l1, l2, l3, l4, l5, l6, l7, l8, l9, l10, l11, l12, l13] := by
  rw [manifestLines_eq]
  exact ⟨rfl, rfl⟩

/-! ## Claim C3: VerifyData over the cbergoon tree -/

theorem verifyFetchAux_mem (dID : String) (locs : List String) (f : Nat → Bytes) :
    ∀ (idxs : List Nat) (st : InMemoryShardStore),
      (∀ i ∈ idxs, memLookup st.shardStore dID i = some (f i)) →
      verifyFetchAux inMemoryStore dID locs idxs st
        = (idxs.map (fun i => some (f i)), st) := by
  intro idxs
  induction idxs with
  | nil => intro st _; rfl
  | cons i is ih =>
    intro st h
    have hR : inMemoryStore.retrieveShard st dID i (locs.getD i "") = .ok (f i, st) := by
      show RetrieveShard st dID i (locs.getD i "") = .ok (f i, st)
      unfold RetrieveShard
      simp only [h i (List.mem_cons_self i is)]
    simp only [verifyFetchAux, hR, ih st (fun j hj => h j (List.mem_cons_of_mem i hj)),
      List.map_cons]

theorem manifestProofLines_eq (H : Bytes → Bytes)
    (t0 t1 t2 t3 t4 t5 t6 t7 t8 t9 t10 t11 t12 t13 : Bytes) :
    manifestProofLines H [t0, t1, t2, t3, t4, t5, t6, t7, t8, t9, t10, t11, t12, t13]
      = [ManifestLine.kv ("Proof for shard " ++ toString 0) (poiGetProof H
          [t0, t1, t2, t3, t4, t5, t6, t7, t8, t9, t10, t11, t12, t13] t0),
         ManifestLine.kv ("Proof for shard " ++ toString 1) (poiGetProof H
          [t0, t1, t2, t3, t4, t5, t6, t7, t8, t9, t10, t11, t12, t13] t1),
         ManifestLine.kv ("Proof for shard " ++ toString 2) (poiGetProof H
          [t0, t1, t2, t3, t4, t5, t6, t7, t8, t9, t10, t11, t12, t13] t2),
         ManifestLine.kv ("Proof for shard " ++ toString 3) (poiGetProof H
          [t0, t1, t2, t3, t4, t5, t6, t7, t8, t9, t10, t11, t12, t13] t3),
         ManifestLine.kv ("Proof for shard " ++ toString 4) (poiGetProof H
          [t0, t1, t2, t3, t4, t5, t6, t7, t8, t9, t10, t11, t12, t13] t4),
         ManifestLine.kv ("Proof for shard " ++ toString 5) (poiGetProof H
          [t0, t1, t2, t3, t4, t5, t6, t7, t8, t9, t10, t11, t12, t13] t5),
         ManifestLine.kv ("Proof for shard " ++ toString 6) (poiGetProof H
          [t0, t1, t2, t3, t4, t5, t6, t7, t8, t9, t10, t11, t12, t13] t6),
         ManifestLine.kv ("Proof for shard " ++ toString 7) (poiGetProof H
          [t0, t1, t2, t3, t4, t5, t6, t7, t8, t9, t10, t11, t12, t13] t7),
         ManifestLine.kv ("Proof for shard " ++ toString 8) (poiGetProof H
          [t0, t1, t2, t3, t4, t5, t6, t7, t8, t9, t10, t11, t12, t13] t8),
         ManifestLine.kv ("Proof for shard " ++ toString 9) (poiGetProof H
          [t0, t1, t2, t3, t4, t5, t6, t7, t8, t9, t10, t11, t12, t13] t9),
         ManifestLine.kv ("Proof for shard " ++ toString 10) (poiGetProof H
          [t0, t1, t2, t3, t4, t5, t6, t7, t8, t9, t10, t11, t12, t13] t10),
         ManifestLine.kv ("Proof for shard " ++ toString 11) (poiGetProof H
          [t0, t1, t2, t3, t4, t5, t6, t7, t8, t9, t10, t11, t12, t13] t11),
         ManifestLine.kv ("Proof for shard " ++ toString 12) (poiGetProof H
          [t0, t1, t2, t3, t4, t5, t6, t7, t8, t9, t10, t11, t12, t13] t12),
         ManifestLine.kv ("Proof for shard " ++ toString 13) (poiGetProof H
          [t0, t1, t2, t3, t4, t5, t6, t7, t8, t9, t10, t11, t12, t13] t13)] := rfl

theorem readProofsAux_manifest (dID fn : String) (fs : Nat) (fmt date : String)
    (l0 l1 l2 l3 l4 l5 l6 l7 l8 l9 l10 l11 l12 l13 : String) (H : Bytes → Bytes)
    (t0 t1 t2 t3 t4 t5 t6 t7 t8 t9 t10 t11 t12 t13 : Bytes) :
    readProofsAux (manifestLines dID fn fs fmt date
        [l0, l1, l2, l3, l4, l5, l6, l7, l8, l9, l10, l11, l12, l13] H
        [t0, t1, t2, t3, t4, t5, t6, t7, t8, t9, t10, t11, t12, t13]) (List.range 14)
      = .ok ([t0, t1, t2, t3, t4, t5, t6, t7, t8, t9, t10, t11, t12, t13].map
          (fun t => poiGetProof H
            [t0, t1, t2, t3, t4, t5, t6, t7, t8, t9, t10, t11, t12, t13] t)) := by
  rw [manifestLines_eq, manifestProofLines_eq]
  rfl

theorem poiGetProof_of_levels (H : Bytes → Bytes) (contents : List Bytes)
    (content : Bytes) (lv : List (List Bytes)) (j : Nat)
    (hf : (cbLeafContents contents).findIdx? (fun c => c == content) = some j)
    (hlv : cbLevels H contents = lv) :
    poiGetProof H contents content
      = "proof: " ++ fmtHashListGo (cbPathAux lv j).1 ++ ", indices: "
        ++ fmtIndicesGo (cbPathAux lv j).2 := by
  unfold poiGetProof cbMerklePath
  simp only [hf, hlv]

theorem cbLevels_stoShards : cbLevels toyHash stoShards
    = [[[100], [101], [102], [103], [104], [105], [106], [107], [108], [109], [110],
        [111], [112], [113]],
       [[33], [97], [161], [225], [38], [102], [166]],
       [[211], [40], [120], [136]], [[150], [186]], [[162]]] := by
  show buildLevels toyHash ((cbLeafContents stoShards).map toyHash) = _
  rw [show (cbLeafContents stoShards).map toyHash
      = [[100], [101], [102], [103], [104], [105], [106], [107], [108], [109], [110],
         [111], [112], [113]] from by decide]
  rw [buildLevels_of_ge_two _ _ (by decide),
    show nextLevel toyHash [[100], [101], [102], [103], [104], [105], [106], [107],
        [108], [109], [110], [111], [112], [113]]
      = [[33], [97], [161], [225], [38], [102], [166]] from by decide,
    buildLevels_of_ge_two _ _ (by decide),
    show nextLevel toyHash [[33], [97], [161], [225], [38], [102], [166]]
      = [[211], [40], [120], [136]] from by decide,
    buildLevels_of_ge_two _ _ (by decide),
    show nextLevel toyHash [[211], [40], [120], [136]] = [[150], [186]] from by decide,
    buildLevels_of_ge_two _ _ (by decide),
    show nextLevel toyHash [[150], [186]] = [[162]] from by decide,
    buildLevels_of_le_one _ _ (by decide)]

theorem cbLevels_curShards : cbLevels toyHash curShards
    = [[[100], [101], [102], [103], [199], [105], [106], [107], [108], [109], [110],
        [111], [112], [113]],
       [[33], [97], [94], [225], [38], [102], [166]],
       [[211], [222], [120], [136]], [[81], [186]], [[31]]] := by
  show buildLevels toyHash ((cbLeafContents curShards).map toyHash) = _
  rw [show (cbLeafContents curShards).map toyHash
      = [[100], [101], [102], [103], [199], [105], [106], [107], [108], [109], [110],
         [111], [112], [113]] from by decide]
  rw [buildLevels_of_ge_two _ _ (by decide),
    show nextLevel toyHash [[100], [101], [102], [103], [199], [105], [106], [107],
        [108], [109], [110], [111], [112], [113]]
      = [[33], [97], [94], [225], [38], [102], [166]] from by decide,
    buildLevels_of_ge_two _ _ (by decide),
    show nextLevel toyHash [[33], [97], [94], [225], [38], [102], [166]]
      = [[211], [222], [120], [136]] from by decide,
    buildLevels_of_ge_two _ _ (by decide),
    show nextLevel toyHash [[211], [222], [120], [136]] = [[81], [186]] from by decide,
    buildLevels_of_ge_two _ _ (by decide),
    show nextLevel toyHash [[81], [186]] = [[31]] from by decide,
    buildLevels_of_le_one _ _ (by decide)]

/-- C3 (amended, first half): for an untampered persisted payload — the
backend still holding the fourteen manifest shards unchanged — `VerifyData`
reports pass for every shard. The claim's second half is refuted by the
tampered instance (see the counterexample): a cbergoon Merkle path holds only
sibling hashes, none of which depends on the leaf's own content, so the
altered shard itself still passes while the other thirteen shards fail. -/
theorem C3_untampered_verify_all_pass (H : Bytes → Bytes)
    (t0 t1 t2 t3 t4 t5 t6 t7 t8 t9 t10 t11 t12 t13 : Bytes)
    (l0 l1 l2 l3 l4 l5 l6 l7 l8 l9 l10 l11 l12 l13 : String)
    (dID fn : String) (fs : Nat) (fmt date : String) (st : InMemoryShardStore)
    (hmem : ∀ i, i < 14 → memLookup st.shardStore dID i
        = some (([t0, t1, t2, t3, t4, t5, t6, t7, t8, t9, t10, t11, t12, t13]
          : List Bytes).getD i [])) :
    VerifyData inMemoryStore H (manifestLines dID fn fs fmt date
        [l0, l1, l2, l3, l4, l5, l6, l7, l8, l9, l10, l11, l12, l13] H
        [t0, t1, t2, t3, t4, t5, t6, t7, t8, t9, t10, t11, t12, t13]) st
      = .ok (List.replicate 14 (some true)) := by
  have hreads := manifest_reads dID fn fs fmt date l0 l1 l2 l3 l4 l5 l6 l7 l8 l9 l10
    l11 l12 l13 H [t0, t1, t2, t3, t4, t5, t6, t7, t8, t9, t10, t11, t12, t13]
  have hfetch : verifyFetchAux inMemoryStore dID
      [l0, l1, l2, l3, l4, l5, l6, l7, l8, l9, l10, l11, l12, l13] (List.range 14) st
      = ([some t0, some t1, some t2, some t3, some t4, some t5, some t6, some t7,
          some t8, some t9, some t10, some t11, some t12, some t13], st) :=
    verifyFetchAux_mem dID [l0, l1, l2, l3, l4, l5, l6, l7, l8, l9, l10, l11, l12, l13]
      (fun i => ([t0, t1, t2, t3, t4, t5, t6, t7, t8, t9, t10, t11, t12, t13]
        : List Bytes).getD i [])
      (List.range 14) st (fun i hi => hmem i (List.mem_range.mp hi))
  have hbuild : BuildMerkleTree H
      (([some t0, some t1, some t2, some t3, some t4, some t5, some t6, some t7,
        some t8, some t9, some t10, some t11, some t12, some t13]
        : List (Option Bytes)).map (fun o => o.getD []))
      = .ok (cbLevels H [t0, t1, t2, t3, t4, t5, t6, t7, t8, t9, t10, t11, t12, t13]) :=
    rfl
  have hproofs := readProofsAux_manifest dID fn fs fmt date l0 l1 l2 l3 l4 l5 l6 l7 l8
    l9 l10 l11 l12 l13 H t0 t1 t2 t3 t4 t5 t6 t7 t8 t9 t10 t11 t12 t13
  unfold VerifyData
  simp only [hreads.1, hreads.2, hfetch]
  simp only [hbuild, hproofs]
  show Except.ok
      [some (poiGetProof H [t0, t1, t2, t3, t4, t5, t6, t7, t8, t9, t10, t11, t12, t13]
          t0 == poiGetProof H [t0, t1, t2, t3, t4, t5, t6, t7, t8, t9, t10, t11, t12,
          t13] t0),
       some (poiGetProof H [t0, t1, t2, t3, t4, t5, t6, t7, t8, t9, t10, t11, t12, t13]
          t1 == poiGetProof H [t0, t1, t2, t3, t4, t5, t6, t7, t8, t9, t10, t11, t12,
          t13] t1),
       some (poiGetProof H [t0, t1, t2, t3, t4, t5, t6, t7, t8, t9, t10, t11, t12, t13]
          t2 == poiGetProof H [t0, t1, t2, t3, t4, t5, t6, t7, t8, t9, t10, t11, t12,
          t13] t2),
       some (poiGetProof H [t0, t1, t2, t3, t4, t5, t6, t7, t8, t9, t10, t11, t12, t13]
          t3 == poiGetProof H [t0, t1, t2, t3, t4, t5, t6, t7, t8, t9, t10, t11, t12,
          t13] t3),
       some (poiGetProof H [t0, t1, t2, t3, t4, t5, t6, t7, t8, t9, t10, t11, t12, t13]
          t4 == poiGetProof H [t0, t1, t2, t3, t4, t5, t6, t7, t8, t9, t10, t11, t12,
          t13] t4),
       some (poiGetProof H [t0, t1, t2, t3, t4, t5, t6, t7, t8, t9, t10, t11, t12, t13]
          t5 == poiGetProof H [t0, t1, t2, t3, t4, t5, t6, t7, t8, t9, t10, t11, t12,
          t13] t5),
       some (poiGetProof H [t0, t1, t2, t3, t4, t5, t6, t7, t8, t9, t10, t11, t12, t13]
          t6 == poiGetProof H [t0, t1, t2, t3, t4, t5, t6, t7, t8, t9, t10, t11, t12,
          t13] t6),
       some (poiGetProof H [t0, t1, t2, t3, t4, t5, t6, t7, t8, t9, t10, t11, t12, t13]
          t7 == poiGetProof H [t0, t1, t2, t3, t4, t5, t6, t7, t8, t9, t10, t11, t12,
          t13] t7),
       some (poiGetProof H [t0, t1, t2, t3, t4, t5, t6, t7, t8, t9, t10, t11, t12, t13]
          t8 == poiGetProof H [t0, t1, t2, t3, t4, t5, t6, t7, t8, t9, t10, t11, t12,
          t13] t8),
       some (poiGetProof H [t0, t1, t2, t3, t4, t5, t6, t7, t8, t9, t10, t11, t12, t13]
          t9 == poiGetProof H [t0, t1, t2, t3, t4, t5, t6, t7, t8, t9, t10, t11, t12,
          t13] t9),
       some (poiGetProof H [t0, t1, t2, t3, t4, t5, t6, t7, t8, t9, t10, t11, t12, t13]
          t10 == poiGetProof H [t0, t1, t2, t3, t4, t5, t6, t7, t8, t9, t10, t11, t12,
          t13] t10),
       some (poiGetProof H [t0, t1, t2, t3, t4, t5, t6, t7, t8, t9, t10, t11, t12, t13]
          t11 == poiGetProof H [t0, t1, t2, t3, t4, t5, t6, t7, t8, t9, t10, t11, t12,
          t13] t11),
       some (poiGetProof H [t0, t1, t2, t3, t4, t5, t6, t7, t8, t9, t10, t11, t12, t13]
          t12 == poiGetProof H [t0, t1, t2, t3, t4, t5, t6, t7, t8, t9, t10, t11, t12,
          t13] t12),
       some (poiGetProof H [t0, t1, t2, t3, t4, t5, t6, t7, t8, t9, t10, t11, t12, t13]
          t13 == poiGetProof H [t0, t1, t2, t3, t4, t5, t6, t7, t8, t9, t10, t11, t12,
          t13] t13)]
    = Except.ok (List.replicate 14 (some true))
  simp only [beq_self_eq_true]
  rfl

theorem C3_untampered_verify_all_pass_witness :
    (∀ i, i < 14 → memLookup intactState.shardStore "d" i
        = some (([[0], [1], [2], [3], [4], [5], [6], [7], [8], [9], [10], [11], [12],
          [13]] : List Bytes).getD i []))
    ∧ VerifyData inMemoryStore toyHash (manifestLines "d" "f" 14 "bin" "today"
        ["q0", "q1", "q2", "q3", "q4", "q5", "q6", "q7", "q8", "q9", "q10", "q11",
          "q12", "q13"] toyHash
        [[0], [1], [2], [3], [4], [5], [6], [7], [8], [9], [10], [11], [12], [13]])
        intactState
      = .ok (List.replicate 14 (some true)) :=
  ⟨by decide,
   C3_untampered_verify_all_pass toyHash [0] [1] [2] [3] [4] [5] [6] [7] [8] [9] [10]
     [11] [12] [13] "q0" "q1" "q2" "q3" "q4" "q5" "q6" "q7" "q8" "q9" "q10" "q11" "q12"
     "q13" "d" "f" 14 "bin" "today" intactState (by decide)⟩

/-- C3 counterexample: shard 4 is altered on the backend (`tamperedState`
holds `[99]` where `[4]` was stored) and `VerifyData` is run against the
original manifest. The altered shard is the only one that PASSES — its
recomputed Merkle path consists of sibling hashes, none of which involves the
altered leaf — while the thirteen unaltered shards fail, refuting the claim
that Verify reports fail at least for the altered shard. -/
theorem C3_counterexample_altered_shard_passes :
    VerifyData inMemoryStore toyHash (manifestLines "d" "f" 14 "bin" "today"
        ["q0", "q1", "q2", "q3", "q4", "q5", "q6", "q7", "q8", "q9", "q10", "q11",
          "q12", "q13"] toyHash stoShards) tamperedState
      = .ok [some false, some false, some false, some false, some true, some false,
          some false, some false, some false, some false, some false, some false,
          some false, some false] := by
  have hreads := manifest_reads "d" "f" 14 "bin" "today" "q0" "q1" "q2" "q3" "q4" "q5"
    "q6" "q7" "q8" "q9" "q10" "q11" "q12" "q13" toyHash stoShards
  have hfetch : verifyFetchAux inMemoryStore "d"
      ["q0", "q1", "q2", "q3", "q4", "q5", "q6", "q7", "q8", "q9", "q10", "q11", "q12",
        "q13"] (List.range 14) tamperedState
      = ([some [0], some [1], some [2], some [3], some [99], some [5], some [6],
          some [7], some [8], some [9], some [10], some [11], some [12], some [13]],
         tamperedState) :=
    verifyFetchAux_mem "d"
      ["q0", "q1", "q2", "q3", "q4", "q5", "q6", "q7", "q8", "q9", "q10", "q11", "q12",
        "q13"] (fun i => curShards.getD i []) (List.range 14) tamperedState (by decide)
  have hbuild : BuildMerkleTree toyHash
      (([some [0], some [1], some [2], some [3], some [99], some [5], some [6],
        some [7], some [8], some [9], some [10], some [11], some [12], some [13]]
        : List (Option Bytes)).map (fun o => o.getD []))
      = .ok (cbLevels toyHash curShards) := rfl
  have hproofs : readProofsAux (manifestLines "d" "f" 14 "bin" "today"
        ["q0", "q1", "q2", "q3", "q4", "q5", "q6", "q7", "q8", "q9", "q10", "q11",
          "q12", "q13"] toyHash stoShards) (List.range 14)
      = .ok (stoShards.map (fun t => poiGetProof toyHash stoShards t)) :=
    readProofsAux_manifest "d" "f" 14 "bin" "today" "q0" "q1" "q2" "q3" "q4" "q5" "q6"
      "q7" "q8" "q9" "q10" "q11" "q12" "q13" toyHash [0] [1] [2] [3] [4] [5] [6] [7]
      [8] [9] [10] [11] [12] [13]
  have hb0 : (poiGetProof toyHash curShards [0] == poiGetProof toyHash stoShards [0])
      = false := by
    rw [poiGetProof_of_levels toyHash curShards [0] _ 0 (by decide) cbLevels_curShards,
      poiGetProof_of_levels toyHash stoShards [0] _ 0 (by decide) cbLevels_stoShards]
    decide
  have hb1 : (poiGetProof toyHash curShards [1] == poiGetProof toyHash stoShards [1])
      = false := by
    rw [poiGetProof_of_levels toyHash curShards [1] _ 1 (by decide) cbLevels_curShards,
      poiGetProof_of_levels toyHash stoShards [1] _ 1 (by decide) cbLevels_stoShards]
    decide
  have hb2 : (poiGetProof toyHash curShards [2] == poiGetProof toyHash stoShards [2])
      = false := by
    rw [poiGetProof_of_levels toyHash curShards [2] _ 2 (by decide) cbLevels_curShards,
      poiGetProof_of_levels toyHash stoShards [2] _ 2 (by decide) cbLevels_stoShards]
    decide
  have hb3 : (poiGetProof toyHash curShards [3] == poiGetProof toyHash stoShards [3])
      = false := by
    rw [poiGetProof_of_levels toyHash curShards [3] _ 3 (by decide) cbLevels_curShards,
      poiGetProof_of_levels toyHash stoShards [3] _ 3 (by decide) cbLevels_stoShards]
    decide
  have hb4 : (poiGetProof toyHash curShards [99] == poiGetProof toyHash stoShards [4])
      = true := by
    rw [poiGetProof_of_levels toyHash curShards [99] _ 4 (by decide) cbLevels_curShards,
      poiGetProof_of_levels toyHash stoShards [4] _ 4 (by decide) cbLevels_stoShards]
    decide
  have hb5 : (poiGetProof toyHash curShards [5] == poiGetProof toyHash stoShards [5])
      = false := by
    rw [poiGetProof_of_levels toyHash curShards [5] _ 5 (by decide) cbLevels_curShards,
      poiGetProof_of_levels toyHash stoShards [5] _ 5 (by decide) cbLevels_stoShards]
    decide
  have hb6 : (poiGetProof toyHash curShards [6] == poiGetProof toyHash stoShards [6])
      = false := by
    rw [poiGetProof_of_levels toyHash curShards [6] _ 6 (by decide) cbLevels_curShards,
      poiGetProof_of_levels toyHash stoShards [6] _ 6 (by decide) cbLevels_stoShards]
    decide
  have hb7 : (poiGetProof toyHash curShards [7] == poiGetProof toyHash stoShards [7])
      = false := by
    rw [poiGetProof_of_levels toyHash curShards [7] _ 7 (by decide) cbLevels_curShards,
      poiGetProof_of_levels toyHash stoShards [7] _ 7 (by decide) cbLevels_stoShards]
    decide
  have hb8 : (poiGetProof toyHash curShards [8] == poiGetProof toyHash stoShards [8])
      = false := by
    rw [poiGetProof_of_levels toyHash curShards [8] _ 8 (by decide) cbLevels_curShards,
      poiGetProof_of_levels toyHash stoShards [8] _ 8 (by decide) cbLevels_stoShards]
    decide
  have hb9 : (poiGetProof toyHash curShards [9] == poiGetProof toyHash stoShards [9])
      = false := by
    rw [poiGetProof_of_levels toyHash curShards [9] _ 9 (by decide) cbLevels_curShards,
      poiGetProof_of_levels toyHash stoShards [9] _ 9 (by decide) cbLevels_stoShards]
    decide
  have hb10 : (poiGetProof toyHash curShards [10] == poiGetProof toyHash stoShards [10])
      = false := by
    rw [poiGetProof_of_levels toyHash curShards [10] _ 10 (by decide)
        cbLevels_curShards,
      poiGetProof_of_levels toyHash stoShards [10] _ 10 (by decide) cbLevels_stoShards]
    decide
  have hb11 : (poiGetProof toyHash curShards [11] == poiGetProof toyHash stoShards [11])
      = false := by
    rw [poiGetProof_of_levels toyHash curShards [11] _ 11 (by decide)
        cbLevels_curShards,
      poiGetProof_of_levels toyHash stoShards [11] _ 11 (by decide) cbLevels_stoShards]
    decide
  have hb12 : (poiGetProof toyHash curShards [12] == poiGetProof toyHash stoShards [12])
      = false := by
    rw [poiGetProof_of_levels toyHash curShards [12] _ 12 (by decide)
        cbLevels_curShards,
      poiGetProof_of_levels toyHash stoShards [12] _ 12 (by decide) cbLevels_stoShards]
    decide
  have hb13 : (poiGetProof toyHash curShards [13] == poiGetProof toyHash stoShards [13])
      = false := by
    rw [poiGetProof_of_levels toyHash curShards [13] _ 13 (by decide)
        cbLevels_curShards,
      poiGetProof_of_levels toyHash stoShards [13] _ 13 (by decide) cbLevels_stoShards]
    decide
  unfold VerifyData
  simp only [hreads.1, hreads.2, hfetch]
  simp only [hbuild, hproofs]
  show Except.ok
      [some (poiGetProof toyHash curShards [0] == poiGetProof toyHash stoShards [0]),
       some (poiGetProof toyHash curShards [1] == poiGetProof toyHash stoShards [1]),
       some (poiGetProof toyHash curShards [2] == poiGetProof toyHash stoShards [2]),
       some (poiGetProof toyHash curShards [3] == poiGetProof toyHash stoShards [3]),
       some (poiGetProof toyHash curShards [99] == poiGetProof toyHash stoShards [4]),
       some (poiGetProof toyHash curShards [5] == poiGetProof toyHash stoShards [5]),
       some (poiGetProof toyHash curShards [6] == poiGetProof toyHash stoShards [6]),
       some (poiGetProof toyHash curShards [7] == poiGetProof toyHash stoShards [7]),
       some (poiGetProof toyHash curShards [8] == poiGetProof toyHash stoShards [8]),
       some (poiGetProof toyHash curShards [9] == poiGetProof toyHash stoShards [9]),
       some (poiGetProof toyHash curShards [10] == poiGetProof toyHash stoShards [10]),
       some (poiGetProof toyHash curShards [11] == poiGetProof toyHash stoShards [11]),
       some (poiGetProof toyHash curShards [12] == poiGetProof toyHash stoShards [12]),
       some (poiGetProof toyHash curShards [13] == poiGetProof toyHash stoShards [13])]
    = Except.ok [some false, some false, some false, some false, some true, some false,
        some false, some false, some false, some false, some false, some false,
        some false, some false]
  rw [hb0, hb1, hb2, hb3, hb4, hb5, hb6, hb7, hb8, hb9, hb10, hb11, hb12, hb13]

theorem RetrieveData_masked_ok (E : Bytes → Bytes → Bytes)
    (hE : ∀ k x, (E k x).length = blockSize) (key iv p : Bytes)
    (hkey : key.length = 32) (hkb : ∀ b ∈ key, b < 256) (hiv : iv.length = blockSize)
    (tail : List Bytes) (dID : String) (lines : List ManifestLine) (locs : List String)
    (hdid : MetadataFileReader lines "dataID" = .ok dID)
    (hlocs : readLocations lines = .ok locs)
    (st : InMemoryShardStore) (mask : Nat → Bool)
    (fill : List (Option Bytes) → Except String (List Bytes))
    (hmem : ∀ i, i < 14 → mask i = false → memLookup st.shardStore dID i
        = some ((splitDataShards (iv ++ cfbEncrypt (E key) iv p) ++ tail).getD i []))
    (hrec : rsReconstruct fill ((List.range 14).map (fun i => if mask i then none
        else some ((splitDataShards (iv ++ cfbEncrypt (E key) iv p) ++ tail).getD i [])))
      = .ok (splitDataShards (iv ++ cfbEncrypt (E key) iv p) ++ tail))
    (hmask : (List.range 14).countP mask ≤ ParityShards) :
    RetrieveData (maskedStore inMemoryStore mask) E fill lines st ⟨hexEncode key⟩
      = .ok (cfbDecrypt (E key) iv (cfbEncrypt (E key) iv p
          ++ List.replicate (perShard (p.length + blockSize) * DataShards
            - (p.length + blockSize)) 0)) := by
  have hctlen : (iv ++ cfbEncrypt (E key) iv p).length = p.length + blockSize := by
    rw [List.length_append, hiv, cfbEncrypt_length (E key) (hE key)]
    omega
  unfold RetrieveData
  simp only [hdid, hlocs]
  rw [show List.range (DataShards + ParityShards) = List.range 14 from rfl]
  rw [fetchShardsAux_masked dID locs
    (splitDataShards (iv ++ cfbEncrypt (E key) iv p) ++ tail) mask (List.range 14) st
    (fun i hi hm => hmem i (by simpa using hi) hm)]
  simp only []
  rw [if_neg (by omega)]
  rw [Decode_padded fill _ (iv ++ cfbEncrypt (E key) iv p) tail hrec]
  rw [GetEncryptionKey_hex key hkey hkb]
  have hok : aesKeyOk key = true := by simp [aesKeyOk, hkey]
  have hplen : (rsPadded (iv ++ cfbEncrypt (E key) iv p)).length
      = perShard (p.length + blockSize) * DataShards := by
    rw [rsPadded_length, hctlen]
  have hnotshort : ¬(rsPadded (iv ++ cfbEncrypt (E key) iv p)).length < blockSize := by
    rw [hplen]
    simp only [blockSize, perShard, DataShards]
    omega
  simp only [Decrypt, hok, if_true, if_neg hnotshort]
  have hpad : rsPadded (iv ++ cfbEncrypt (E key) iv p)
      = iv ++ (cfbEncrypt (E key) iv p
        ++ List.replicate (perShard (p.length + blockSize) * DataShards
          - (p.length + blockSize)) 0) := by
    unfold rsPadded
    rw [List.append_assoc, hctlen]
  rw [hpad, List.take_left' hiv, List.drop_left' hiv]
  rfl

theorem RetrieveData_masked_insufficient (E : Bytes → Bytes → Bytes)
    (key : Bytes) (shards : List Bytes) (dID : String) (lines : List ManifestLine)
    (locs : List String)
    (hdid : MetadataFileReader lines "dataID" = .ok dID)
    (hlocs : readLocations lines = .ok locs)
    (st : InMemoryShardStore) (mask : Nat → Bool)
    (fill : List (Option Bytes) → Except String (List Bytes))
    (hmem : ∀ i, i < 14 → mask i = false →
        memLookup st.shardStore dID i = some (shards.getD i []))
    (hmask : (List.range 14).countP mask > ParityShards) :
    RetrieveData (maskedStore inMemoryStore mask) E fill lines st ⟨hexEncode key⟩
      = .error "insufficient shards for reconstruction" := by
  unfold RetrieveData
  simp only [hdid, hlocs]
  rw [show List.range (DataShards + ParityShards) = List.range 14 from rfl]
  rw [fetchShardsAux_masked dID locs shards mask (List.range 14) st
    (fun i hi hm => hmem i (by simpa using hi) hm)]
  simp only []
  rw [if_pos (by omega)]

theorem rsReconstruct_all_present (fill : List (Option Bytes) → Except String (List Bytes))
    (shards : List Bytes) (hlen : shards.length = 14) :
    rsReconstruct fill ((List.range 14).map (fun i => some (shards.getD i [])))
      = .ok shards := by
  have hcp : countPresent ((List.range 14).map (fun i => some (shards.getD i []))) = 14 := by
    unfold countPresent
    rw [List.countP_map]
    rw [List.countP_congr (q := fun _ => true) (by intro i _; simp)]
    rw [List.countP_true, List.length_range]
  unfold rsReconstruct
  rw [hcp, List.length_map, List.length_range, if_pos rfl, List.map_map]
  have hmap : ((fun s => Option.getD s []) ∘ fun i => some (shards.getD i []))
      = fun i => shards.getD i [] := by
    funext i
    rfl
  rw [hmap, show (14 : Nat) = shards.length from hlen.symm, range_map_getD]

theorem StoreData_inMemory_ok (E : Bytes → Bytes → Bytes) (H : Bytes → Bytes)
    (parity : List Bytes → List Bytes) (hpar : ∀ ds, (parity ds).length = ParityShards)
    (p key iv : Bytes) (hkey : key.length = 32) (hkb : ∀ b ∈ key, b < 256)
    (hiv : iv.length = blockSize) (st : InMemoryShardStore)
    (locs : List String) (mn fn fmt date : String) :
    ∃ st' : InMemoryShardStore,
      StoreData inMemoryStore E H parity p st ⟨hexEncode key⟩ locs iv mn fn fmt date
        = ⟨.ok (GenerateDataID H (iv ++ cfbEncrypt (E key) iv p)), st',
            some (mn, manifestLines (GenerateDataID H (iv ++ cfbEncrypt (E key) iv p)) fn
              p.length fmt date locs H
              (splitDataShards (iv ++ cfbEncrypt (E key) iv p)
                ++ parity (splitDataShards (iv ++ cfbEncrypt (E key) iv p))))⟩
      ∧ ∀ i, i < 14 → memLookup st'.shardStore
            (GenerateDataID H (iv ++ cfbEncrypt (E key) iv p)) i
          = some ((splitDataShards (iv ++ cfbEncrypt (E key) iv p)
              ++ parity (splitDataShards (iv ++ cfbEncrypt (E key) iv p))).getD i []) := by
  have hshlen : (splitDataShards (iv ++ cfbEncrypt (E key) iv p)
      ++ parity (splitDataShards (iv ++ cfbEncrypt (E key) iv p))).length = 14 := by
    rw [List.length_append, splitDataShards_length, hpar]
    rfl
  rw [StoreData_eq inMemoryStore E H parity p st key iv locs mn fn fmt date hkey hkb hiv]
  have hauxfst := storeShardsAux_inMemory_ok
    (GenerateDataID H (iv ++ cfbEncrypt (E key) iv p)) locs
    (splitDataShards (iv ++ cfbEncrypt (E key) iv p)
      ++ parity (splitDataShards (iv ++ cfbEncrypt (E key) iv p))).enum st
  have hsplit : storeShardsAux inMemoryStore
      (GenerateDataID H (iv ++ cfbEncrypt (E key) iv p)) locs
      (splitDataShards (iv ++ cfbEncrypt (E key) iv p)
        ++ parity (splitDataShards (iv ++ cfbEncrypt (E key) iv p))).enum st
      = (none, (storeShardsAux inMemoryStore
          (GenerateDataID H (iv ++ cfbEncrypt (E key) iv p)) locs
          (splitDataShards (iv ++ cfbEncrypt (E key) iv p)
            ++ parity (splitDataShards (iv ++ cfbEncrypt (E key) iv p))).enum st).2) := by
    rw [← hauxfst]
  refine ⟨(storeShardsAux inMemoryStore
      (GenerateDataID H (iv ++ cfbEncrypt (E key) iv p)) locs
      (splitDataShards (iv ++ cfbEncrypt (E key) iv p)
        ++ parity (splitDataShards (iv ++ cfbEncrypt (E key) iv p))).enum st).2, ?_, ?_⟩
  · rw [hsplit]
  · intro i hi
    apply storeShardsAux_inMemory_hit
    · exact enum_mem_getD _ i (by omega) []
    · exact enum_fst_nodup _

/-! ## Claim C1: store/retrieve round-trip -/

/-- C1 (amended): retrieving via `RetrieveData` from the manifest of a
successful `StoreData(p, k)` with all 14 shards intact returns a buffer whose
first `len(p)` bytes are exactly `p`, of total length
`perShard(len(p)+16)·8 − 16`; the buffer equals `p` exactly iff that length
is `len(p)`, i.e. when `len(p)` is a multiple of 8 — otherwise `Decode`'s
`len(shards[0])·DataShards` join returns the zero-padded ciphertext and the
decrypted output carries `(−len(p)) mod 8` trailing bytes. -/
theorem C1_store_retrieve_returns_prefix (E : Bytes → Bytes → Bytes)
    (hE : ∀ k x, (E k x).length = blockSize) (H : Bytes → Bytes)
    (parity : List Bytes → List Bytes) (hpar : ∀ ds, (parity ds).length = ParityShards)
    (p key iv : Bytes) (hp : 1 ≤ p.length) (hkey : key.length = 32)
    (hkb : ∀ b ∈ key, b < 256) (hiv : iv.length = blockSize)
    (st : InMemoryShardStore) (mn fn fmt date : String)
    (l0 l1 l2 l3 l4 l5 l6 l7 l8 l9 l10 l11 l12 l13 : String)
    (fill : List (Option Bytes) → Except String (List Bytes)) :
    ∃ (st' : InMemoryShardStore) (mlines : List ManifestLine) (res : Bytes),
      StoreData inMemoryStore E H parity p st ⟨hexEncode key⟩
          [l0, l1, l2, l3, l4, l5, l6, l7, l8, l9, l10, l11, l12, l13] iv mn fn fmt date
        = ⟨.ok (GenerateDataID H (iv ++ cfbEncrypt (E key) iv p)), st', some (mn, mlines)⟩
      ∧ RetrieveData inMemoryStore E fill mlines st' ⟨hexEncode key⟩ = .ok res
      ∧ res.take p.length = p
      ∧ res.length = perShard (p.length + blockSize) * DataShards - blockSize
      ∧ (p.length % 8 = 0 → res = p) := by
  obtain ⟨st', hstore, hmem⟩ := StoreData_inMemory_ok E H parity hpar p key iv hkey hkb hiv
    st [l0, l1, l2, l3, l4, l5, l6, l7, l8, l9, l10, l11, l12, l13] mn fn fmt date
  have hreads := manifest_reads (GenerateDataID H (iv ++ cfbEncrypt (E key) iv p)) fn
    p.length fmt date l0 l1 l2 l3 l4 l5 l6 l7 l8 l9 l10 l11 l12 l13 H
    (splitDataShards (iv ++ cfbEncrypt (E key) iv p)
      ++ parity (splitDataShards (iv ++ cfbEncrypt (E key) iv p)))
  have hshlen : (splitDataShards (iv ++ cfbEncrypt (E key) iv p)
      ++ parity (splitDataShards (iv ++ cfbEncrypt (E key) iv p))).length = 14 := by
    rw [List.length_append, splitDataShards_length, hpar]
    rfl
  have hretr : RetrieveData inMemoryStore E fill
      (manifestLines (GenerateDataID H (iv ++ cfbEncrypt (E key) iv p)) fn
        p.length fmt date [l0, l1, l2, l3, l4, l5, l6, l7, l8, l9, l10, l11, l12, l13] H
        (splitDataShards (iv ++ cfbEncrypt (E key) iv p)
          ++ parity (splitDataShards (iv ++ cfbEncrypt (E key) iv p)))) st'
      ⟨hexEncode key⟩
      = .ok (cfbDecrypt (E key) iv (cfbEncrypt (E key) iv p
          ++ List.replicate (perShard (p.length + blockSize) * DataShards
            - (p.length + blockSize)) 0)) := by
    rw [← maskedStore_false]
    apply RetrieveData_masked_ok E hE key iv p hkey hkb hiv
      (parity (splitDataShards (iv ++ cfbEncrypt (E key) iv p)))
      (GenerateDataID H (iv ++ cfbEncrypt (E key) iv p)) _ _ hreads.1 hreads.2
    · intro i hi _
      exact hmem i hi
    · exact rsReconstruct_all_present fill _ hshlen
    · simp
  refine ⟨st', _, _, hstore, hretr, ?_, ?_, ?_⟩
  · exact cfbDecrypt_encrypt_prefix (E key) (hE key) p _ iv
  · rw [cfbDecrypt_length (E key) (hE key), List.length_append,
      cfbEncrypt_length (E key) (hE key), List.length_replicate]
    have : p.length + blockSize ≤ perShard (p.length + blockSize) * DataShards := by
      simp only [blockSize, perShard, DataShards]
      omega
    simp only [blockSize, perShard, DataShards] at *
    omega
  · intro hmod
    have hzero : perShard (p.length + blockSize) * DataShards - (p.length + blockSize) = 0 := by
      simp only [blockSize, perShard, DataShards]
      omega
    rw [hzero, List.replicate_zero, List.append_nil]
    exact cfbDecrypt_encrypt (E key) (hE key) p iv

/-! ## Claim C2: reconstruction succeeds iff at most P shards are missing -/

/-- C2: from a stored payload's manifest, `RetrieveData` succeeds if and only
if at least `D` of the `D+P` shards are retrievable (the set of deleted
indices is `mask`): with at most `P = 6` missing it returns bytes (given the
Reed-Solomon solver's contract `hfill`), and with more than `P` missing it
fails with the `insufficient shards` error and returns no bytes. -/
theorem C2_retrieve_succeeds_iff_enough_shards (E : Bytes → Bytes → Bytes)
    (hE : ∀ k x, (E k x).length = blockSize) (H : Bytes → Bytes)
    (parity : List Bytes → List Bytes) (hpar : ∀ ds, (parity ds).length = ParityShards)
    (p key iv : Bytes) (hp : 1 ≤ p.length) (hkey : key.length = 32)
    (hkb : ∀ b ∈ key, b < 256) (hiv : iv.length = blockSize)
    (st : InMemoryShardStore) (mn fn fmt date : String)
    (l0 l1 l2 l3 l4 l5 l6 l7 l8 l9 l10 l11 l12 l13 : String)
    (mask : Nat → Bool) (fill : List (Option Bytes) → Except String (List Bytes))
    (hfill : fill ((List.range 14).map (fun i => if mask i then none
        else some ((splitDataShards (iv ++ cfbEncrypt (E key) iv p)
          ++ parity (splitDataShards (iv ++ cfbEncrypt (E key) iv p))).getD i [])))
      = .ok (splitDataShards (iv ++ cfbEncrypt (E key) iv p)
          ++ parity (splitDataShards (iv ++ cfbEncrypt (E key) iv p)))) :
    ∃ (st' : InMemoryShardStore) (mlines : List ManifestLine),
      StoreData inMemoryStore E H parity p st ⟨hexEncode key⟩
          [l0, l1, l2, l3, l4, l5, l6, l7, l8, l9, l10, l11, l12, l13] iv mn fn fmt date
        = ⟨.ok (GenerateDataID H (iv ++ cfbEncrypt (E key) iv p)), st', some (mn, mlines)⟩
      ∧ ((List.range 14).countP mask ≤ ParityShards →
          ∃ res, RetrieveData (maskedStore inMemoryStore mask) E fill mlines st'
            ⟨hexEncode key⟩ = .ok res)
      ∧ ((List.range 14).countP mask > ParityShards →
          RetrieveData (maskedStore inMemoryStore mask) E fill mlines st' ⟨hexEncode key⟩
            = .error "insufficient shards for reconstruction") := by
  obtain ⟨st', hstore, hmem⟩ := StoreData_inMemory_ok E H parity hpar p key iv hkey hkb hiv
    st [l0, l1, l2, l3, l4, l5, l6, l7, l8, l9, l10, l11, l12, l13] mn fn fmt date
  have hreads := manifest_reads (GenerateDataID H (iv ++ cfbEncrypt (E key) iv p)) fn
    p.length fmt date l0 l1 l2 l3 l4 l5 l6 l7 l8 l9 l10 l11 l12 l13 H
    (splitDataShards (iv ++ cfbEncrypt (E key) iv p)
      ++ parity (splitDataShards (iv ++ cfbEncrypt (E key) iv p)))
  have hshlen : (splitDataShards (iv ++ cfbEncrypt (E key) iv p)
      ++ parity (splitDataShards (iv ++ cfbEncrypt (E key) iv p))).length = 14 := by
    rw [List.length_append, splitDataShards_length, hpar]
    rfl
  refine ⟨st', _, hstore, ?_, ?_⟩
  · intro hle
    exact ⟨_, RetrieveData_masked_ok E hE key iv p hkey hkb hiv
      (parity (splitDataShards (iv ++ cfbEncrypt (E key) iv p)))
      (GenerateDataID H (iv ++ cfbEncrypt (E key) iv p)) _ _ hreads.1 hreads.2 st' mask fill
      (fun i hi _ => hmem i hi) (rsReconstruct_masked fill _ hshlen mask hle hfill) hle⟩
  · intro hgt
    apply RetrieveData_masked_insufficient E key
      (splitDataShards (iv ++ cfbEncrypt (E key) iv p)
        ++ parity (splitDataShards (iv ++ cfbEncrypt (E key) iv p)))
      (GenerateDataID H (iv ++ cfbEncrypt (E key) iv p)) _ _ hreads.1 hreads.2
    · intro i hi _
      exact hmem i hi
    · exact hgt

/-! ## Claim C6: all-or-nothing manifest emission -/

theorem storeShardsAux_failStore (fails : Nat → Option String) (dID : String)
    (locs : List String) :
    ∀ (l : List (Nat × Bytes)) (st : Unit),
      storeShardsAux (failStore fails) dID locs l st
        = (match l.find? (fun pr => (fails pr.1).isSome) with
           | none => (none, st)
           | some pr => (fails pr.1, st)) := by
  intro l
  induction l with
  | nil => intro st; rfl
  | cons pr rest ih =>
    intro st
    obtain ⟨i, sh⟩ := pr
    cases hf : fails i with
    | some e =>
      have hS : (failStore fails).storeShard st dID i sh (locs.getD i "") = .error e := by
        simp [failStore, hf]
      simp only [storeShardsAux, hS]
      rw [List.find?_cons_of_pos _ (by simp [hf])]
      simp [hf]
    | none =>
      have hS : (failStore fails).storeShard st dID i sh (locs.getD i "") = .ok st := by
        simp [failStore, hf]
      simp only [storeShardsAux, hS]
      rw [ih st, List.find?_cons_of_neg _ (by simp [hf])]

/-- C6: `StoreData` is all-or-nothing for the manifest. With a backend whose
per-index put outcomes are prescribed by `fails`: when no put fails the
manifest file is written (after all 14 puts) and the dataID returned; when
some put fails, `StoreData` returns the error of the first failing put and no
manifest file is created. -/
theorem C6_manifest_written_iff_all_puts_succeed (E : Bytes → Bytes → Bytes)
    (H : Bytes → Bytes) (parity : List Bytes → List Bytes) (p : Bytes)
    (key iv : Bytes) (hkey : key.length = 32) (hkb : ∀ b ∈ key, b < 256)
    (hiv : iv.length = blockSize) (locs : List String) (mn fn fmt date : String)
    (fails : Nat → Option String) :
    StoreData (failStore fails) E H parity p () ⟨hexEncode key⟩ locs iv mn fn fmt date
      = (match (splitDataShards (iv ++ cfbEncrypt (E key) iv p)
            ++ parity (splitDataShards (iv ++ cfbEncrypt (E key) iv p))).enum.find?
              (fun pr => (fails pr.1).isSome) with
         | none => ⟨.ok (GenerateDataID H (iv ++ cfbEncrypt (E key) iv p)), (),
             some (mn, manifestLines (GenerateDataID H (iv ++ cfbEncrypt (E key) iv p)) fn
               p.length fmt date locs H
               (splitDataShards (iv ++ cfbEncrypt (E key) iv p)
                 ++ parity (splitDataShards (iv ++ cfbEncrypt (E key) iv p))))⟩
         | some pr0 => ⟨.error ((fails pr0.1).getD ""), (), none⟩) := by
  rw [StoreData_eq (failStore fails) E H parity p () key iv locs mn fn fmt date hkey hkb hiv]
  rw [storeShardsAux_failStore fails (GenerateDataID H (iv ++ cfbEncrypt (E key) iv p)) locs
    (splitDataShards (iv ++ cfbEncrypt (E key) iv p)
      ++ parity (splitDataShards (iv ++ cfbEncrypt (E key) iv p))).enum ()]
  cases hf : (splitDataShards (iv ++ cfbEncrypt (E key) iv p)
      ++ parity (splitDataShards (iv ++ cfbEncrypt (E key) iv p))).enum.find?
        (fun pr => (fails pr.1).isSome) with
  | none => rfl
  | some pr0 =>
    have hsome := List.find?_some hf
    obtain ⟨e, he⟩ := Option.isSome_iff_exists.mp (by simpa using hsome)
    simp only [he]
    rfl

theorem C6_manifest_written_iff_all_puts_succeed_witness :
    StoreData (failStore (fun i => if i == 3 then some "disk full" else none))
        zeroCipher toyHash zeroParity [1, 2] () ⟨hexEncode (List.replicate 32 0)⟩
        (List.replicate 14 "loc") (List.replicate 16 0) "m" "f" "bin" "today"
      = (match (splitDataShards (List.replicate 16 0
            ++ cfbEncrypt (zeroCipher (List.replicate 32 0)) (List.replicate 16 0) [1, 2])
            ++ zeroParity (splitDataShards (List.replicate 16 0
              ++ cfbEncrypt (zeroCipher (List.replicate 32 0)) (List.replicate 16 0)
                [1, 2]))).enum.find?
              (fun pr => (((fun i => if i == 3 then some "disk full" else none) pr.1
                : Option String)).isSome) with
         | none => (⟨.ok (GenerateDataID toyHash (List.replicate 16 0
             ++ cfbEncrypt (zeroCipher (List.replicate 32 0)) (List.replicate 16 0) [1, 2])),
             (), some ("m", manifestLines (GenerateDataID toyHash (List.replicate 16 0
               ++ cfbEncrypt (zeroCipher (List.replicate 32 0)) (List.replicate 16 0) [1, 2]))
               "f" 2 "bin" "today" (List.replicate 14 "loc") toyHash
               (splitDataShards (List.replicate 16 0
                 ++ cfbEncrypt (zeroCipher (List.replicate 32 0)) (List.replicate 16 0) [1, 2])
                 ++ zeroParity (splitDataShards (List.replicate 16 0
                   ++ cfbEncrypt (zeroCipher (List.replicate 32 0)) (List.replicate 16 0)
                     [1, 2]))))⟩ : StoreDataResult Unit)
         | some pr0 =>
           ⟨.error (((fun i => if i == 3 then some "disk full" else none) pr0.1
             : Option String).getD ""), (), none⟩) :=
  C6_manifest_written_iff_all_puts_succeed zeroCipher toyHash zeroParity [1, 2]
    (List.replicate 32 0) (List.replicate 16 0) (by simp)
    (by intro b hb; simp at hb; omega) (by simp [blockSize]) (List.replicate 14 "loc")
    "m" "f" "bin" "today" (fun i => if i == 3 then some "disk full" else none)

/-! ## Claim C7: manifest completeness -/

theorem proofLine_not_shardLine (idx : Nat) (v : String) :
    isShardLine (ManifestLine.kv ("Proof for shard " ++ toString idx) v) = false := by
  have h6 : ("Proof for shard " ++ toString idx).data.take 6
      = ['P', 'r', 'o', 'o', 'f', ' '] := by
    rw [String.data_append, List.take_append_eq_append_take]
    rw [show ("Proof for shard ".data).length = 16 from rfl]
    rw [show (6 - 16 : Nat) = 0 from rfl, List.take_zero, List.append_nil]
    rfl
  simp [isShardLine, h6]

theorem filter_isShardLine_proofLines (H : Bytes → Bytes) (shards : List Bytes) :
    (manifestProofLines H shards).filter isShardLine = [] := by
  unfold manifestProofLines
  rw [List.filter_map]
  rw [List.filter_eq_nil_iff.mpr ?h]
  · rfl
  case h =>
    intro pr _
    simp [proofLine_not_shardLine]

/-- C7: every successful `StoreData` produces a manifest whose
storage-location entries are exactly the 14 `shard_i` lines with indices
covering `[0, 14)` in order, whose `dataID` value equals the lowercase-hex
SHA-256 of the ciphertext, and which contains a proof entry for every one of
the 14 shards written. -/
theorem C7_manifest_complete (E : Bytes → Bytes → Bytes) (H : Bytes → Bytes)
    (parity : List Bytes → List Bytes) (hpar : ∀ ds, (parity ds).length = ParityShards)
    (p key iv : Bytes) (hkey : key.length = 32) (hkb : ∀ b ∈ key, b < 256)
    (hiv : iv.length = blockSize) (st : InMemoryShardStore) (mn fn fmt date : String)
    (l0 l1 l2 l3 l4 l5 l6 l7 l8 l9 l10 l11 l12 l13 : String) :
    ∃ (st' : InMemoryShardStore) (mlines : List ManifestLine),
      StoreData inMemoryStore E H parity p st ⟨hexEncode key⟩
          [l0, l1, l2, l3, l4, l5, l6, l7, l8, l9, l10, l11, l12, l13] iv mn fn fmt date
        = ⟨.ok (GenerateDataID H (iv ++ cfbEncrypt (E key) iv p)), st', some (mn, mlines)⟩
      ∧ mlines.filter isShardLine
          = [ManifestLine.kv ("shard_" ++ toString 0) l0,
             ManifestLine.kv ("shard_" ++ toString 1) l1,
             ManifestLine.kv ("shard_" ++ toString 2) l2,
             ManifestLine.kv ("shard_" ++ toString 3) l3,
             ManifestLine.kv ("shard_" ++ toString 4) l4,
             ManifestLine.kv ("shard_" ++ toString 5) l5,
             ManifestLine.kv ("shard_" ++ toString 6) l6,
             ManifestLine.kv ("shard_" ++ toString 7) l7,
             ManifestLine.kv ("shard_" ++ toString 8) l8,
             ManifestLine.kv ("shard_" ++ toString 9) l9,
             ManifestLine.kv ("shard_" ++ toString 10) l10,
             ManifestLine.kv ("shard_" ++ toString 11) l11,
             ManifestLine.kv ("shard_" ++ toString 12) l12,
             ManifestLine.kv ("shard_" ++ toString 13) l13]
      ∧ MetadataFileReader mlines "dataID"
          = .ok (hexEncode (H (iv ++ cfbEncrypt (E key) iv p)))
      ∧ ∀ i, i < 14 →
          ManifestLine.kv ("Proof for shard " ++ toString i)
            (poiGetProof H (splitDataShards (iv ++ cfbEncrypt (E key) iv p)
                ++ parity (splitDataShards (iv ++ cfbEncrypt (E key) iv p)))
              ((splitDataShards (iv ++ cfbEncrypt (E key) iv p)
                ++ parity (splitDataShards (iv ++ cfbEncrypt (E key) iv p))).getD i []))
            ∈ mlines := by
  obtain ⟨st', hstore, hmem⟩ := StoreData_inMemory_ok E H parity hpar p key iv hkey hkb hiv
    st [l0, l1, l2, l3, l4, l5, l6, l7, l8, l9, l10, l11, l12, l13] mn fn fmt date
  have hshlen : (splitDataShards (iv ++ cfbEncrypt (E key) iv p)
      ++ parity (splitDataShards (iv ++ cfbEncrypt (E key) iv p))).length = 14 := by
    rw [List.length_append, splitDataShards_length, hpar]
    rfl
  refine ⟨st', _, hstore, ?_, ?_, ?_⟩
  · rw [manifestLines_eq, List.filter_append, List.filter_append,
      filter_isShardLine_proofLines]
    rfl
  · exact (manifest_reads (GenerateDataID H (iv ++ cfbEncrypt (E key) iv p)) fn
      p.length fmt date l0 l1 l2 l3 l4 l5 l6 l7 l8 l9 l10 l11 l12 l13 H
      (splitDataShards (iv ++ cfbEncrypt (E key) iv p)
        ++ parity (splitDataShards (iv ++ cfbEncrypt (E key) iv p)))).1
  · intro i hi
    rw [manifestLines_eq]
    apply List.mem_append.mpr
    left
    apply List.mem_append.mpr
    right
    exact List.mem_map_of_mem _ (enum_mem_getD _ i (by omega) [])

theorem C7_manifest_complete_witness :
    ∃ (st' : InMemoryShardStore) (mlines : List ManifestLine),
      StoreData inMemoryStore zeroCipher toyHash zeroParity [5] ⟨[], []⟩
          ⟨hexEncode (List.replicate 32 0)⟩
          ["a0", "a1", "a2", "a3", "a4", "a5", "a6", "a7", "a8", "a9", "a10", "a11",
            "a12", "a13"] (List.replicate 16 0) "m" "f" "bin" "today"
        = ⟨.ok (GenerateDataID toyHash (List.replicate 16 0
            ++ cfbEncrypt (zeroCipher (List.replicate 32 0)) (List.replicate 16 0) [5])),
            st', some ("m", mlines)⟩
      ∧ mlines.filter isShardLine
          = [ManifestLine.kv ("shard_" ++ toString 0) "a0",
             ManifestLine.kv ("shard_" ++ toString 1) "a1",
             ManifestLine.kv ("shard_" ++ toString 2) "a2",
             ManifestLine.kv ("shard_" ++ toString 3) "a3",
             ManifestLine.kv ("shard_" ++ toString 4) "a4",
             ManifestLine.kv ("shard_" ++ toString 5) "a5",
             ManifestLine.kv ("shard_" ++ toString 6) "a6",
             ManifestLine.kv ("shard_" ++ toString 7) "a7",
             ManifestLine.kv ("shard_" ++ toString 8) "a8",
             ManifestLine.kv ("shard_" ++ toString 9) "a9",
             ManifestLine.kv ("shard_" ++ toString 10) "a10",
             ManifestLine.kv ("shard_" ++ toString 11) "a11",
             ManifestLine.kv ("shard_" ++ toString 12) "a12",
             ManifestLine.kv ("shard_" ++ toString 13) "a13"]
      ∧ MetadataFileReader mlines "dataID"
          = .ok (hexEncode (toyHash (List.replicate 16 0
              ++ cfbEncrypt (zeroCipher (List.replicate 32 0)) (List.replicate 16 0) [5])))
      ∧ ∀ i, i < 14 →
          ManifestLine.kv ("Proof for shard " ++ toString i)
            (poiGetProof toyHash (splitDataShards (List.replicate 16 0
                ++ cfbEncrypt (zeroCipher (List.replicate 32 0)) (List.replicate 16 0) [5])
                ++ zeroParity (splitDataShards (List.replicate 16 0
                  ++ cfbEncrypt (zeroCipher (List.replicate 32 0)) (List.replicate 16 0)
                    [5])))
              ((splitDataShards (List.replicate 16 0
                ++ cfbEncrypt (zeroCipher (List.replicate 32 0)) (List.replicate 16 0) [5])
                ++ zeroParity (splitDataShards (List.replicate 16 0
                  ++ cfbEncrypt (zeroCipher (List.replicate 32 0)) (List.replicate 16 0)
                    [5]))).getD i []))
            ∈ mlines :=
  C7_manifest_complete zeroCipher toyHash zeroParity (fun _ => rfl) [5]
    (List.replicate 32 0) (List.replicate 16 0) (by simp)
    (by intro b hb; simp at hb; omega) (by simp [blockSize]) ⟨[], []⟩ "m" "f" "bin" "today"
    "a0" "a1" "a2" "a3" "a4" "a5" "a6" "a7" "a8" "a9" "a10" "a11" "a12" "a13"

theorem C1_store_retrieve_returns_prefix_witness :
    ∃ (st' : InMemoryShardStore) (mlines : List ManifestLine) (res : Bytes),
      StoreData inMemoryStore zeroCipher toyHash zeroParity [1, 2, 3, 4, 5, 6, 7, 8]
          ⟨[], []⟩ ⟨hexEncode (List.replicate 32 0)⟩
          ["b0", "b1", "b2", "b3", "b4", "b5", "b6", "b7", "b8", "b9", "b10", "b11",
            "b12", "b13"] (List.replicate 16 0) "m" "f" "bin" "today"
        = ⟨.ok (GenerateDataID toyHash (List.replicate 16 0
            ++ cfbEncrypt (zeroCipher (List.replicate 32 0)) (List.replicate 16 0)
              [1, 2, 3, 4, 5, 6, 7, 8])), st', some ("m", mlines)⟩
      ∧ RetrieveData inMemoryStore zeroCipher idFill mlines st'
          ⟨hexEncode (List.replicate 32 0)⟩ = .ok res
      ∧ res.take ([1, 2, 3, 4, 5, 6, 7, 8] : Bytes).length = [1, 2, 3, 4, 5, 6, 7, 8]
      ∧ res.length = perShard (([1, 2, 3, 4, 5, 6, 7, 8] : Bytes).length + blockSize)
          * DataShards - blockSize
      ∧ (([1, 2, 3, 4, 5, 6, 7, 8] : Bytes).length % 8 = 0
          → res = [1, 2, 3, 4, 5, 6, 7, 8]) :=
  C1_store_retrieve_returns_prefix zeroCipher (fun _ _ => by simp [zeroCipher, blockSize])
    toyHash zeroParity (fun _ => rfl) [1, 2, 3, 4, 5, 6, 7, 8] (List.replicate 32 0)
    (List.replicate 16 0) (by simp) (by simp)
    (by intro b hb; simp at hb; omega) (by simp [blockSize]) ⟨[], []⟩ "m" "f" "bin" "today"
    "b0" "b1" "b2" "b3" "b4" "b5" "b6" "b7" "b8" "b9" "b10" "b11" "b12" "b13" idFill

/-- C1 counterexample: for the 1-byte payload `[1]`, `StoreData` succeeds and
writes a manifest, but `RetrieveData` from that manifest does not return
`[1]`: the reconstruction joins `len(shards[0])·8 = 24` bytes and decryption
yields 8 bytes (the payload plus 7 decrypted padding bytes). -/
theorem C1_counterexample_trailing_padding :
    (StoreData inMemoryStore zeroCipher toyHash zeroParity [1] ⟨[], []⟩
        ⟨hexEncode (List.replicate 32 0)⟩
        ["c0", "c1", "c2", "c3", "c4", "c5", "c6", "c7", "c8", "c9", "c10", "c11",
          "c12", "c13"] (List.replicate 16 0) "m" "f" "bin" "today").manifest.isSome = true
    ∧ ((StoreData inMemoryStore zeroCipher toyHash zeroParity [1] ⟨[], []⟩
        ⟨hexEncode (List.replicate 32 0)⟩
        ["c0", "c1", "c2", "c3", "c4", "c5", "c6", "c7", "c8", "c9", "c10", "c11",
          "c12", "c13"] (List.replicate 16 0) "m" "f" "bin" "today").manifest.map
      (fun m => RetrieveData inMemoryStore zeroCipher idFill m.2
        (StoreData inMemoryStore zeroCipher toyHash zeroParity [1] ⟨[], []⟩
          ⟨hexEncode (List.replicate 32 0)⟩
          ["c0", "c1", "c2", "c3", "c4", "c5", "c6", "c7", "c8", "c9", "c10", "c11",
            "c12", "c13"] (List.replicate 16 0) "m" "f" "bin" "today").backend
        ⟨hexEncode (List.replicate 32 0)⟩))
      ≠ some (.ok [1]) := by
  have hE0 : ∀ k x, (zeroCipher k x).length = blockSize := fun _ _ => by
    simp [zeroCipher, blockSize]
  obtain ⟨st', hstore, hmem⟩ := StoreData_inMemory_ok zeroCipher toyHash zeroParity
    (fun _ => rfl) [1] (List.replicate 32 0) (List.replicate 16 0) (by simp)
    (by intro b hb; simp at hb; omega) (by simp [blockSize]) ⟨[], []⟩
    ["c0", "c1", "c2", "c3", "c4", "c5", "c6", "c7", "c8", "c9", "c10", "c11",
      "c12", "c13"] "m" "f" "bin" "today"
  rw [hstore]
  have hreads := manifest_reads
    (GenerateDataID toyHash (List.replicate 16 0
      ++ cfbEncrypt (zeroCipher (List.replicate 32 0)) (List.replicate 16 0) [1]))
    "f" ([1] : Bytes).length "bin" "today" "c0" "c1" "c2" "c3" "c4" "c5" "c6" "c7" "c8" "c9" "c10" "c11"
    "c12" "c13" toyHash
    (splitDataShards (List.replicate 16 0
        ++ cfbEncrypt (zeroCipher (List.replicate 32 0)) (List.replicate 16 0) [1])
      ++ zeroParity (splitDataShards (List.replicate 16 0
        ++ cfbEncrypt (zeroCipher (List.replicate 32 0)) (List.replicate 16 0) [1])))
  have hshlen : (splitDataShards (List.replicate 16 0
      ++ cfbEncrypt (zeroCipher (List.replicate 32 0)) (List.replicate 16 0) [1])
      ++ zeroParity (splitDataShards (List.replicate 16 0
        ++ cfbEncrypt (zeroCipher (List.replicate 32 0)) (List.replicate 16 0) [1]))).length
      = 14 := by
    rw [List.length_append, splitDataShards_length]
    rfl
  have hretr : RetrieveData inMemoryStore zeroCipher idFill
      (manifestLines (GenerateDataID toyHash (List.replicate 16 0
        ++ cfbEncrypt (zeroCipher (List.replicate 32 0)) (List.replicate 16 0) [1]))
        "f" ([1] : Bytes).length "bin" "today"
        ["c0", "c1", "c2", "c3", "c4", "c5", "c6", "c7", "c8", "c9", "c10", "c11",
          "c12", "c13"] toyHash
        (splitDataShards (List.replicate 16 0
            ++ cfbEncrypt (zeroCipher (List.replicate 32 0)) (List.replicate 16 0) [1])
          ++ zeroParity (splitDataShards (List.replicate 16 0
            ++ cfbEncrypt (zeroCipher (List.replicate 32 0)) (List.replicate 16 0) [1]))))
      st' ⟨hexEncode (List.replicate 32 0)⟩
      = .ok (cfbDecrypt (zeroCipher (List.replicate 32 0)) (List.replicate 16 0)
          (cfbEncrypt (zeroCipher (List.replicate 32 0)) (List.replicate 16 0) [1]
            ++ List.replicate (perShard (([1] : Bytes).length + blockSize) * DataShards
              - (([1] : Bytes).length + blockSize)) 0)) := by
    rw [← maskedStore_false]
    exact RetrieveData_masked_ok zeroCipher hE0 (List.replicate 32 0) (List.replicate 16 0)
      [1] (by simp) (by intro b hb; simp at hb; omega) (by simp [blockSize]) _ _ _ _
      hreads.1 hreads.2 st' (fun _ => false) idFill (fun i hi _ => hmem i hi)
      (rsReconstruct_all_present idFill _ hshlen) (by decide)
  simp only [Option.map_some']
  refine ⟨rfl, ?_⟩
  rw [hretr]
  intro hc
  have hres : cfbDecrypt (zeroCipher (List.replicate 32 0)) (List.replicate 16 0)
      (cfbEncrypt (zeroCipher (List.replicate 32 0)) (List.replicate 16 0) [1]
        ++ List.replicate (perShard (([1] : Bytes).length + blockSize) * DataShards
          - (([1] : Bytes).length + blockSize)) 0) = [1] := by
    have h1 := Option.some.inj hc
    exact Except.ok.inj h1
  have hlen : (cfbDecrypt (zeroCipher (List.replicate 32 0)) (List.replicate 16 0)
      (cfbEncrypt (zeroCipher (List.replicate 32 0)) (List.replicate 16 0) [1]
        ++ List.replicate (perShard (([1] : Bytes).length + blockSize) * DataShards
          - (([1] : Bytes).length + blockSize)) 0)).length = 8 := by
    rw [cfbDecrypt_length _ (hE0 (List.replicate 32 0)), List.length_append,
      cfbEncrypt_length _ (hE0 (List.replicate 32 0)), List.length_replicate]
    rfl
  rw [hres] at hlen
  simp at hlen

theorem C2_retrieve_succeeds_iff_enough_shards_witness :
    ∃ (st' : InMemoryShardStore) (mlines : List ManifestLine),
      StoreData inMemoryStore zeroCipher toyHash zeroParity [9, 9, 9] ⟨[], []⟩
          ⟨hexEncode (List.replicate 32 0)⟩
          ["d0", "d1", "d2", "d3", "d4", "d5", "d6", "d7", "d8", "d9", "d10", "d11",
            "d12", "d13"] (List.replicate 16 0) "m" "f" "bin" "today"
        = ⟨.ok (GenerateDataID toyHash (List.replicate 16 0
            ++ cfbEncrypt (zeroCipher (List.replicate 32 0)) (List.replicate 16 0)
              [9, 9, 9])), st', some ("m", mlines)⟩
      ∧ ((List.range 14).countP (fun _ => false) ≤ ParityShards →
          ∃ res, RetrieveData (maskedStore inMemoryStore (fun _ => false)) zeroCipher
            (fun _ => .ok (splitDataShards (List.replicate 16 0
                ++ cfbEncrypt (zeroCipher (List.replicate 32 0)) (List.replicate 16 0)
                  [9, 9, 9])
              ++ zeroParity (splitDataShards (List.replicate 16 0
                ++ cfbEncrypt (zeroCipher (List.replicate 32 0)) (List.replicate 16 0)
                  [9, 9, 9])))) mlines st' ⟨hexEncode (List.replicate 32 0)⟩ = .ok res)
      ∧ ((List.range 14).countP (fun _ => false) > ParityShards →
          RetrieveData (maskedStore inMemoryStore (fun _ => false)) zeroCipher
            (fun _ => .ok (splitDataShards (List.replicate 16 0
                ++ cfbEncrypt (zeroCipher (List.replicate 32 0)) (List.replicate 16 0)
                  [9, 9, 9])
              ++ zeroParity (splitDataShards (List.replicate 16 0
                ++ cfbEncrypt (zeroCipher (List.replicate 32 0)) (List.replicate 16 0)
                  [9, 9, 9])))) mlines st' ⟨hexEncode (List.replicate 32 0)⟩
            = .error "insufficient shards for reconstruction") :=
  C2_retrieve_succeeds_iff_enough_shards zeroCipher
    (fun _ _ => by simp [zeroCipher, blockSize]) toyHash zeroParity (fun _ => rfl)
    [9, 9, 9] (List.replicate 32 0) (List.replicate 16 0) (by simp) (by simp)
    (by intro b hb; simp at hb; omega) (by simp [blockSize]) ⟨[], []⟩ "m" "f" "bin" "today"
    "d0" "d1" "d2" "d3" "d4" "d5" "d6" "d7" "d8" "d9" "d10" "d11" "d12" "d13"
    (fun _ => false)
    (fun _ => .ok (splitDataShards (List.replicate 16 0
        ++ cfbEncrypt (zeroCipher (List.replicate 32 0)) (List.replicate 16 0) [9, 9, 9])
      ++ zeroParity (splitDataShards (List.replicate 16 0
        ++ cfbEncrypt (zeroCipher (List.replicate 32 0)) (List.replicate 16 0) [9, 9, 9]))))
    rfl

theorem C5_pow2_getProof_verifies_witness :
    GetProof (buildLevels toyHash [[1], [2], [3], [4]]) 1
        = .ok (getProofAux (buildLevels toyHash [[1], [2], [3], [4]]) 1) ∧
      VerifyProof toyHash ([[1], [2], [3], [4]].getD 1 [])
        (getProofAux (buildLevels toyHash [[1], [2], [3], [4]]) 1)
        (Root (buildLevels toyHash [[1], [2], [3], [4]])) = true :=
  C5_pow2_getProof_verifies toyHash [[1], [2], [3], [4]] 2 (by rfl) 1 (by simp)

end Vault
